import Mathlib

/-!
Streaming conversation session controller (`UserChat.jsx`) and the backend
controllers of the tool-schema registry (`mcpController.js`) and of the batch
invitations (`InvitationController.js`).

A shallow embedding of the chat component's conversation memory, credential
resolution, tool-schema resolution, event-stream decoding and displayed
streaming turn, and of the two controllers, followed by the properties
established about them.

Text is modelled as `List Char` (a sequence of Unicode scalar values, which is
what `TextDecoder` delivers).  Values produced by `JSON.parse` are modelled by
`JVal`; the value `undefined` is `none` in `Option JVal`.
-/

set_option maxRecDepth 100000

namespace UserChat

/-! ## Text primitives of the platform -/

/-- Characters removed by `String.prototype.trim`: ECMAScript WhiteSpace and
LineTerminator code points. -/
def isJsWhitespace (c : Char) : Bool :=
  let n := c.toNat
  n = 9 || n = 10 || n = 11 || n = 12 || n = 13 || n = 32 || n = 160 ||
  n = 0x1680 || (0x2000 ≤ n && n ≤ 0x200A) || n = 0x2028 || n = 0x2029 ||
  n = 0x202F || n = 0x205F || n = 0x3000 || n = 0xFEFF

/-- Remove the trailing characters that satisfy `p`. -/
def trimEndBy (p : Char → Bool) : List Char → List Char
  | [] => []
  | c :: cs =>
    match trimEndBy p cs with
    | [] => if p c then [] else [c]
    | d :: r => c :: d :: r

/-- Remove trailing whitespace (`trimEnd`). -/
def jsTrimEnd (s : List Char) : List Char :=
  trimEndBy isJsWhitespace s

/-- Model of `String.prototype.trim`. -/
def jsTrim (s : List Char) : List Char :=
  jsTrimEnd (s.dropWhile isJsWhitespace)

/-- Model of `Array.prototype.slice(-n)`: the last `n` elements. -/
def sliceLast {α : Type} (n : Nat) (l : List α) : List α :=
  l.drop (l.length - n)

/-! ## JavaScript values obtained from `JSON.parse` -/

mutual
/-- A value produced by `JSON.parse`.  A number is represented by the text
that `Number.prototype.toString` gives for it (so `0` and `-0` are both
`"0"`); an object by its own properties in property-enumeration order. -/
inductive JVal where
  | null : JVal
  | bool (b : Bool) : JVal
  | num (repr : List Char) : JVal
  | str (s : List Char) : JVal
  | arr (xs : JList) : JVal
  | obj (ms : JMembers) : JVal
deriving DecidableEq, Repr
/-- Elements of an array. -/
inductive JList where
  | nil : JList
  | cons (v : JVal) (rest : JList) : JList
deriving DecidableEq, Repr
/-- Own properties of an object, in enumeration order. -/
inductive JMembers where
  | nil : JMembers
  | cons (k : List Char) (v : JVal) (rest : JMembers) : JMembers
deriving DecidableEq, Repr
end

/-- Own property lookup. -/
def JMembers.get? (k : List Char) : JMembers → Option JVal
  | .nil => none
  | .cons k1 v rest => if k1 = k then some v else rest.get? k

/-- Own property names in enumeration order. -/
def JMembers.keys : JMembers → List (List Char)
  | .nil => []
  | .cons k _ rest => k :: rest.keys

/-- Own property values in enumeration order. -/
def JMembers.values : JMembers → List JVal
  | .nil => []
  | .cons _ v rest => v :: rest.values

/-- Elements of an array as a list. -/
def JList.toList : JList → List JVal
  | .nil => []
  | .cons v rest => v :: rest.toList

/-- Value of a canonical array-index property name (`"0"`, `"7"`, `"42"`,
at most `2^32 - 2`); `none` for every other name. -/
def arrayIndex? (k : List Char) : Option Nat :=
  if k = [] then none
  else if k.all Char.isDigit = false then none
  else if k.head? = some '0' ∧ k ≠ ['0'] then none
  else
    let n := k.foldl (fun acc c => 10 * acc + (c.toNat - 48)) 0
    if n ≤ 4294967294 then some n else none

/-- Replace the value of an existing own property, keeping its position. -/
def JMembers.replace (k : List Char) (v : JVal) : JMembers → JMembers
  | .nil => .nil
  | .cons k1 v1 rest => if k1 = k then .cons k v rest else .cons k1 v1 (rest.replace k v)

/-- Append a new own property after all existing ones. -/
def JMembers.snoc (k : List Char) (v : JVal) : JMembers → JMembers
  | .nil => .cons k v .nil
  | .cons k1 v1 rest => .cons k1 v1 (rest.snoc k v)

/-- Insert a new array-index property `k` (of value `n`) at its place:
array-index names come first, in ascending numeric order. -/
def JMembers.insertIndex (n : Nat) (k : List Char) (v : JVal) : JMembers → JMembers
  | .nil => .cons k v .nil
  | .cons k1 v1 rest =>
    match arrayIndex? k1 with
    | some m => if m < n then .cons k1 v1 (rest.insertIndex n k v) else .cons k v (.cons k1 v1 rest)
    | none => .cons k v (.cons k1 v1 rest)

/-- Property definition `o[k] = v` on an ordinary object: an existing
property keeps its position; a new array-index name is placed among the
index names in ascending order; any other new name goes last. -/
def JMembers.set (k : List Char) (v : JVal) (ms : JMembers) : JMembers :=
  match ms.get? k with
  | some _ => ms.replace k v
  | none =>
    match arrayIndex? k with
    | some n => ms.insertIndex n k v
    | none => ms.snoc k v

/-- Property read `v.k` for a name `k` that is not supplied by a prototype
or by array/string indexing (`type`, `error`, `detail`, `data`, `success`,
`apiKeys`, `mcpServers`, ...).  `none` in the `Option` is a thrown
`TypeError` (reading a property of `null`); `some none` is `undefined`. -/
def JVal.getProp (k : List Char) : JVal → Option (Option JVal)
  | .null => none
  | .obj ms => some (ms.get? k)
  | _ => some none

/-- Truthiness (`ToBoolean`) of a value or `undefined`. -/
def jsTruthy : Option JVal → Bool
  | none => false
  | some .null => false
  | some (.bool b) => b
  | some (.num r) => r ≠ ['0']
  | some (.str s) => s ≠ []
  | some (.arr _) => true
  | some (.obj _) => true

/-- Join texts with a separator. -/
def joinWith (sep : List Char) : List (List Char) → List Char
  | [] => []
  | [x] => x
  | x :: y :: rest => x ++ sep ++ joinWith sep (y :: rest)

mutual
/-- String conversion (`ToString`) of a value, as performed by a template
literal or by `+=` on a string; `none` is a thrown `TypeError` (an object
whose own `toString` property hides `Object.prototype.toString`). -/
def JVal.toText : JVal → Option (List Char)
  | .null => some "null".toList
  | .bool true => some "true".toList
  | .bool false => some "false".toList
  | .num r => some r
  | .str s => some s
  | .arr xs => (JList.toTexts xs).map (joinWith [','])
  | .obj ms =>
    match ms.get? "toString".toList with
    | some _ => none
    | none => some "[object Object]".toList
/-- Texts of the elements of an array as `Array.prototype.join` uses them:
`null` gives the empty text. -/
def JList.toTexts : JList → Option (List (List Char))
  | .nil => some []
  | .cons v rest =>
    match (match v with | .null => some [] | w => JVal.toText w), JList.toTexts rest with
    | some t, some ts => some (t :: ts)
    | _, _ => none
end

/-- String conversion of a value or `undefined`. -/
def jsToString : Option JVal → Option (List Char)
  | none => some "undefined".toList
  | some v => v.toText

/-! ## `JSON.stringify` -/

/-- Hexadecimal digit (lower case) of a number below 16. -/
def hexDigit (n : Nat) : Char :=
  if n < 10 then Char.ofNat (48 + n) else Char.ofNat (87 + n)

/-- Escape of one character inside a JSON string literal (`QuoteJSONString`). -/
def quoteChar (c : Char) : List Char :=
  if c = '"' then ['\\', '"']
  else if c = '\\' then ['\\', '\\']
  else if c.toNat = 8 then ['\\', 'b']
  else if c.toNat = 9 then ['\\', 't']
  else if c.toNat = 10 then ['\\', 'n']
  else if c.toNat = 12 then ['\\', 'f']
  else if c.toNat = 13 then ['\\', 'r']
  else if c.toNat < 32 then ['\\', 'u', '0', '0', hexDigit (c.toNat / 16), hexDigit (c.toNat % 16)]
  else [c]

/-- A text as a JSON string literal. -/
def quoteText (s : List Char) : List Char :=
  ['"'] ++ s.flatMap quoteChar ++ ['"']

mutual
/-- Model of `JSON.stringify` (no indentation) on a value from `JSON.parse`. -/
def JVal.stringify : JVal → List Char
  | .null => "null".toList
  | .bool true => "true".toList
  | .bool false => "false".toList
  | .num r => if r = "Infinity".toList ∨ r = "-Infinity".toList then "null".toList else r
  | .str s => quoteText s
  | .arr xs => ['['] ++ JList.stringify xs ++ [']']
  | .obj ms => ['{'] ++ JMembers.stringify ms ++ ['}']
/-- Elements of an array, serialized and separated by commas. -/
def JList.stringify : JList → List Char
  | .nil => []
  | .cons v .nil => JVal.stringify v
  | .cons v (.cons w rest) => JVal.stringify v ++ [','] ++ JList.stringify (.cons w rest)
/-- Properties of an object, serialized and separated by commas. -/
def JMembers.stringify : JMembers → List Char
  | .nil => []
  | .cons k v .nil => quoteText k ++ [':'] ++ JVal.stringify v
  | .cons k v (.cons k1 v1 rest) =>
    quoteText k ++ [':'] ++ JVal.stringify v ++ [','] ++ JMembers.stringify (.cons k1 v1 rest)
end

/-! ## A JSON text parser

`JSON.parse` is supplied by the platform, so the functions embedding the
component take the parser as a parameter `parse : List Char → Option JVal`
(`none`: a `SyntaxError` is thrown).  `jsonParse` is a concrete parser for the
JSON grammar, used to evaluate the component on concrete texts.  Number
literals are limited to integers of magnitude at most `2^53`; a literal with a
fraction or exponent part, a larger integer, or a string escape denoting an
unpaired surrogate is outside the fragment covered here and yields `none`. -/

/-- JSON insignificant whitespace. -/
def isJsonWs (c : Char) : Bool :=
  c = ' ' || c = '\t' || c = '\n' || c = '\r'

/-- Remove trailing JSON whitespace. -/
def jsonTrimEnd (s : List Char) : List Char :=
  trimEndBy isJsonWs s

/-- Value of a hexadecimal digit. -/
def hexVal? (c : Char) : Option Nat :=
  if c.isDigit then some (c.toNat - 48)
  else if 'a'.toNat ≤ c.toNat ∧ c.toNat ≤ 'f'.toNat then some (c.toNat - 87)
  else if 'A'.toNat ≤ c.toNat ∧ c.toNat ≤ 'F'.toNat then some (c.toNat - 55)
  else none

/-- Value of four hexadecimal digits. -/
def hex4? (a b c d : Char) : Option Nat :=
  match hexVal? a, hexVal? b, hexVal? c, hexVal? d with
  | some w, some x, some y, some z => some (((w * 16 + x) * 16 + y) * 16 + z)
  | _, _, _, _ => none

/-- Character denoted by a single-letter escape. -/
def simpleEscape? (c : Char) : Option Char :=
  if c = '"' then some '"'
  else if c = '\\' then some '\\'
  else if c = '/' then some '/'
  else if c = 'b' then some (Char.ofNat 8)
  else if c = 'f' then some (Char.ofNat 12)
  else if c = 'n' then some (Char.ofNat 10)
  else if c = 'r' then some (Char.ofNat 13)
  else if c = 't' then some (Char.ofNat 9)
  else none

/-- Body of a string literal after the opening quote: the decoded text and
the input after the closing quote. -/
def parseStringBody : List Char → Option (List Char × List Char)
  | [] => none
  | c :: rest =>
    if c = '"' then some ([], rest)
    else if c = '\\' then
      match rest with
      | [] => none
      | e :: rest2 =>
        if e = 'u' then
          match rest2 with
          | h1 :: h2 :: h3 :: h4 :: rest3 =>
            match hex4? h1 h2 h3 h4 with
            | none => none
            | some n =>
              if 0xD800 ≤ n ∧ n ≤ 0xDBFF then
                match rest3 with
                | b :: u :: l1 :: l2 :: l3 :: l4 :: rest4 =>
                  match hex4? l1 l2 l3 l4 with
                  | none => none
                  | some m =>
                    if b = '\\' ∧ u = 'u' ∧ 0xDC00 ≤ m ∧ m ≤ 0xDFFF then
                      (parseStringBody rest4).map fun p =>
                        (Char.ofNat (0x10000 + (n - 0xD800) * 0x400 + (m - 0xDC00)) :: p.1, p.2)
                    else none
                | _ => none
              else if 0xDC00 ≤ n ∧ n ≤ 0xDFFF then none
              else (parseStringBody rest3).map fun p => (Char.ofNat n :: p.1, p.2)
          | _ => none
        else
          match simpleEscape? e with
          | none => none
          | some ch => (parseStringBody rest2).map fun p => (ch :: p.1, p.2)
    else if c.toNat < 32 then none
    else (parseStringBody rest).map fun p => (c :: p.1, p.2)

/-- Numeric value of a run of decimal digits. -/
def digitsValue (ds : List Char) : Nat :=
  ds.foldl (fun acc c => 10 * acc + (c.toNat - 48)) 0

/-- A number literal at the head of the input: its value as `JVal.num` and
the remaining input. -/
def parseNumber (s : List Char) : Option (JVal × List Char) :=
  let neg := s.head? = some '-'
  let body := if neg then s.drop 1 else s
  let ds := body.takeWhile Char.isDigit
  let rest := body.dropWhile Char.isDigit
  if ds = [] then none
  else if ds.head? = some '0' ∧ ds ≠ ['0'] then none
  else if rest.head? = some '.' ∨ rest.head? = some 'e' ∨ rest.head? = some 'E' then none
  else if 9007199254740992 < digitsValue ds then none
  else if ds = ['0'] then some (.num ['0'], rest)
  else some (.num (if neg then '-' :: ds else ds), rest)

/-- Build an object from its members in the order written: each member is
defined in turn, so a repeated name keeps its first position and its last
value. -/
def objectOfEntries (entries : List (List Char × JVal)) : JMembers :=
  entries.foldl (fun ms e => ms.set e.1 e.2) .nil

mutual
/-- A JSON value at the head of the input (`fuel` bounds the nesting). -/
def parseValue : Nat → List Char → Option (JVal × List Char)
  | 0, _ => none
  | fuel + 1, s =>
    match s with
    | [] => none
    | c :: rest =>
      if c = '"' then
        (parseStringBody rest).map fun p => (JVal.str p.1, p.2)
      else if c = '[' then
        match rest.dropWhile isJsonWs with
        | [] => none
        | d :: rest2 =>
          if d = ']' then some (.arr .nil, rest2)
          else (parseElements fuel (d :: rest2)).map fun p => (JVal.arr p.1, p.2)
      else if c = '{' then
        match rest.dropWhile isJsonWs with
        | [] => none
        | d :: rest2 =>
          if d = '}' then some (.obj .nil, rest2)
          else (parseMembers fuel (d :: rest2)).map fun p => (JVal.obj (objectOfEntries p.1), p.2)
      else if s.take 4 = "true".toList then some (.bool true, s.drop 4)
      else if s.take 5 = "false".toList then some (.bool false, s.drop 5)
      else if s.take 4 = "null".toList then some (.null, s.drop 4)
      else parseNumber s
/-- The elements of a non-empty array up to and including the closing bracket. -/
def parseElements : Nat → List Char → Option (JList × List Char)
  | 0, _ => none
  | fuel + 1, s =>
    match parseValue fuel s with
    | none => none
    | some (v, rest) =>
      match rest.dropWhile isJsonWs with
      | [] => none
      | d :: rest2 =>
        if d = ']' then some (.cons v .nil, rest2)
        else if d = ',' then
          (parseElements fuel (rest2.dropWhile isJsonWs)).map fun p => (JList.cons v p.1, p.2)
        else none
/-- The members of a non-empty object, in the order written, up to and
including the closing brace. -/
def parseMembers : Nat → List Char → Option (List (List Char × JVal) × List Char)
  | 0, _ => none
  | fuel + 1, s =>
    match s with
    | [] => none
    | q :: afterQuote =>
      if q = '"' then
        match parseStringBody afterQuote with
        | none => none
        | some (k, rest) =>
          match rest.dropWhile isJsonWs with
          | [] => none
          | colon :: rest1 =>
            if colon = ':' then
              match parseValue fuel (rest1.dropWhile isJsonWs) with
              | none => none
              | some (v, rest2) =>
                match rest2.dropWhile isJsonWs with
                | [] => none
                | d :: rest3 =>
                  if d = '}' then some ([(k, v)], rest3)
                  else if d = ',' then
                    (parseMembers fuel (rest3.dropWhile isJsonWs)).map fun p => ((k, v) :: p.1, p.2)
                  else none
            else none
      else none
end

/-- A concrete `JSON.parse` for the texts of the examples: surrounding
whitespace is ignored and the whole remaining text must be one JSON value.
It covers a fragment of JSON (numbers are integers without fraction or
exponent, escapes give single characters) and rejects what lies outside;
the general theorems take the parser as a parameter. -/
def jsonParse (s : List Char) : Option JVal :=
  let t := jsonTrimEnd (s.dropWhile isJsonWs)
  match parseValue (t.length + 2) t with
  | some (v, []) => some v
  | _ => none

/-! ## Conversation memory -/

/-- One entry of `conversationMemory`: `{ role, content, timestamp }`. -/
structure Turn where
  role : List Char
  content : List Char
  timestamp : Nat
deriving DecidableEq, Repr

/-- One stored message of a saved conversation (`conversation.messages[i]`);
`timestamp` is `none` when the stored message has none. -/
structure HistoryMessage where
  role : List Char
  content : List Char
  timestamp : Option Nat
deriving DecidableEq, Repr

/-- Memory update of `handleChatSubmit` (lines 490 and 509): a blank message
returns early; otherwise the user turn is appended and the last 10 kept. -/
def submitMemory (message : List Char) (now : Nat) (prev : List Turn) : List Turn :=
  if jsTrim message = [] then prev
  else sliceLast 10 (prev ++ [{ role := "user".toList, content := message, timestamp := now }])

/-- Memory update of the `streamingMessage` effect (lines 736-740): the
assistant turn is appended. -/
def finalizeMemory (content : List Char) (now : Nat) (prev : List Turn) : List Turn :=
  prev ++ [{ role := "assistant".toList, content := content, timestamp := now }]

/-- One stored message as a memory entry (lines 379-383): a missing or
falsy timestamp (`msg.timestamp || conversation.createdAt`) is replaced by
`conversation.createdAt`. -/
def historyTurn (createdAt : Nat) (msg : HistoryMessage) : Turn :=
  { role := msg.role
    content := msg.content
    timestamp :=
      match msg.timestamp with
      | some t => if t = 0 then createdAt else t
      | none => createdAt }

/-- Memory built by `fetchInitialData` from a saved conversation (lines
379-383): the last 10 stored messages. -/
def historyMemory (messages : List HistoryMessage) (createdAt : Nat) : List Turn :=
  (sliceLast 10 messages).map (historyTurn createdAt)

/-- The events that write `conversationMemory`. -/
inductive MemoryEvent where
  | submit (message : List Char) (now : Nat)
  | finalize (content : List Char) (now : Nat)
  | loadHistory (messages : List HistoryMessage) (createdAt : Nat)
  | newChat
deriving DecidableEq, Repr

/-- Effect of one event on `conversationMemory`. -/
def memoryStep (mem : List Turn) : MemoryEvent → List Turn
  | .submit message now => submitMemory message now mem
  | .finalize content now => finalizeMemory content now mem
  | .loadHistory messages createdAt => historyMemory messages createdAt
  | .newChat => []

/-- Memory after a sequence of events, starting from `mem`. -/
def runMemory (events : List MemoryEvent) (mem : List Turn) : List Turn :=
  events.foldl memoryStep mem

/-- Effect of one event on the sequence of all turns appended since the
memory was last reset (a specification variable, not a variable of the
component): a non-blank submission and a finalization append their turn, a
new chat empties the sequence, and loading a saved conversation restarts it
from the turns of that conversation. -/
def appendedStep (log : List Turn) : MemoryEvent → List Turn
  | .submit message now =>
    if jsTrim message = [] then log
    else log ++ [{ role := "user".toList, content := message, timestamp := now }]
  | .finalize content now =>
    log ++ [{ role := "assistant".toList, content := content, timestamp := now }]
  | .loadHistory messages createdAt =>
    messages.map (historyTurn createdAt)
  | .newChat => []

/-- The sequence of all turns appended since the last reset, after a
sequence of events. -/
def appendedTurns (events : List MemoryEvent) (log : List Turn) : List Turn :=
  events.foldl appendedStep log

/-! ## Credential resolution (`fetchApiKeysFromBackend`) -/

/-- The two credential endpoints. -/
inductive Endpoint where
  | userKeys
  | systemKeys
deriving DecidableEq, Repr

/-- Outcome of one `axiosInstance.get`: the promise rejects, or it resolves
to a response whose `data` is a value (`none`: `undefined`). -/
inductive Reply where
  | rejected
  | response (data : Option JVal)
deriving DecidableEq, Repr

/-- What the function did and returned: the mapping returned, the requests
issued in order, the number of one-second waits, and the mapping handed to
`setApiKeys` (if any). -/
structure FetchResult where
  keys : JVal
  requests : List Endpoint
  delays : Nat
  stored : Option JVal
deriving DecidableEq, Repr

/-- The empty mapping `{}`. -/
def emptyKeys : JVal := .obj .nil

/-- Value of `response.data?.success`. -/
def replySuccess (data : Option JVal) : Option JVal :=
  match data with
  | none => none
  | some d => (d.getProp "success".toList).getD none

/-- Value of `response.data.apiKeys || {}` for a response whose `success` is
truthy. -/
def replyKeys (data : Option JVal) : JVal :=
  match data with
  | none => emptyKeys
  | some d =>
    match (d.getProp "apiKeys".toList).getD none with
    | some k => if jsTruthy (some k) then k else emptyKeys
    | none => emptyKeys

/-- Model of `Object.values(keys).some(val => val !== '')`. -/
def hasValidKeys : JVal → Bool
  | .obj ms => ms.values.any fun val => val ≠ .str []
  | .arr xs => xs.toList.any fun val => val ≠ .str []
  | .str s => s ≠ []
  | _ => false

/-- Body of the outer `try` of `fetchApiKeysFromBackend` (lines 248-297).
`net k e` is the outcome of a request to endpoint `e` issued after `k`
earlier requests; `issued` and `delays` are the requests and waits so far.
`Except.error` stands for an exception reaching the outer `catch` (it
carries the requests issued until then); both requests sit in `try` blocks
of their own, so every path returns. -/
def fetchAttempt (hasUser : Bool) (net : Nat → Endpoint → Reply)
    (issued : List Endpoint) (delays : Nat) : Except (List Endpoint) FetchResult :=
  if !hasUser then
    .ok { keys := emptyKeys, requests := issued, delays := delays, stored := none }
  else
    let userReply := net issued.length .userKeys
    let issued1 := issued ++ [.userKeys]
    let userKeys : Option JVal :=
      match userReply with
      | .rejected => none
      | .response data =>
        if jsTruthy (replySuccess data) then
          if hasValidKeys (replyKeys data) then some (replyKeys data) else none
        else none
    match userKeys with
    | some keys => .ok { keys := keys, requests := issued1, delays := delays, stored := some keys }
    | none =>
      let systemReply := net issued1.length .systemKeys
      let issued2 := issued1 ++ [.systemKeys]
      match systemReply with
      | .rejected =>
        .ok { keys := emptyKeys, requests := issued2, delays := delays, stored := none }
      | .response data =>
        if jsTruthy (replySuccess data) then
          .ok { keys := replyKeys data, requests := issued2, delays := delays,
                stored := some (replyKeys data) }
        else
          .ok { keys := emptyKeys, requests := issued2, delays := delays, stored := none }

/-- Model of `fetchApiKeysFromBackend(retry)` continuing a run in which
`issued` requests and `delays` waits have happened: the outer `try`, and the
outer `catch` (lines 298-306) which waits one second and calls the function
again while `retry > 0`, and returns `{}` otherwise. -/
def fetchApiKeysFrom (hasUser : Bool) (net : Nat → Endpoint → Reply) :
    Nat → List Endpoint → Nat → Except (List Endpoint) FetchResult
  | 0, issued, delays =>
    match fetchAttempt hasUser net issued delays with
    | .ok r => .ok r
    | .error issued1 =>
      .ok { keys := emptyKeys, requests := issued1, delays := delays, stored := none }
  | retry + 1, issued, delays =>
    match fetchAttempt hasUser net issued delays with
    | .ok r => .ok r
    | .error issued1 => fetchApiKeysFrom hasUser net retry issued1 (delays + 1)

/-- Model of `fetchApiKeysFromBackend(retry)`; the component always calls it
with the default `retry = 3`.  `hasUser` says whether `user?._id` is set. -/
def fetchApiKeysFromBackend (hasUser : Bool) (net : Nat → Endpoint → Reply)
    (retry : Nat) : Except (List Endpoint) FetchResult :=
  fetchApiKeysFrom hasUser net retry [] 0

/-- A network on which every request is rejected. -/
def allRejected : Nat → Endpoint → Reply :=
  fun _ _ => .rejected

/-- A network on which the identity-scoped endpoint answers with one key
and the shared endpoint with another one. -/
def preferredNet : Nat → Endpoint → Reply :=
  fun _ e =>
    match e with
    | .userKeys =>
      .response (some (.obj (.cons "success".toList (.bool true)
        (.cons "apiKeys".toList (.obj (.cons "openai".toList (.str "sk-user".toList) .nil)) .nil))))
    | .systemKeys =>
      .response (some (.obj (.cons "success".toList (.bool true)
        (.cons "apiKeys".toList (.obj (.cons "openai".toList (.str "sk-system".toList) .nil)) .nil))))

/-- A network on which the identity-scoped endpoint answers with an empty
key and the shared endpoint with a usable one. -/
def fallbackNet : Nat → Endpoint → Reply :=
  fun _ e =>
    match e with
    | .userKeys =>
      .response (some (.obj (.cons "success".toList (.bool true)
        (.cons "apiKeys".toList (.obj (.cons "openai".toList (.str []) .nil)) .nil))))
    | .systemKeys =>
      .response (some (.obj (.cons "success".toList (.bool true)
        (.cons "apiKeys".toList (.obj (.cons "openai".toList (.str "sk-system".toList) .nil)) .nil))))

/-! ## Tool-schema resolution (`handleChatSubmit`, lines 516-555) -/

/-- A stored configuration as the component uses it: `_id`, `name`, `schema`. -/
structure McpConfig where
  id : List Char
  name : List Char
  schema : List Char
deriving DecidableEq, Repr

/-- Decimal text of a natural number. -/
def natText (n : Nat) : List Char :=
  (Nat.repr n).toList

/-- Model of `Object.keys` on a value that is an object or an array. -/
def objectKeys : JVal → List (List Char)
  | .obj ms => ms.keys
  | .arr xs => (List.range xs.toList.length).map natText
  | _ => []

/-- Model of `container[key]` for a key taken from `Object.keys(container)`. -/
def containerGet (key : List Char) : JVal → Option JVal
  | .obj ms => ms.get? key
  | .arr xs => (arrayIndex? key).bind fun i => xs.toList.get? i
  | _ => none

/-- Model of the assignment `target.name = value` in strict-mode code: on an
object the property is set; on an array it becomes an extra property that
is neither an element nor serialized; on `null` and on a primitive value a
`TypeError` is thrown (`none`). -/
def assignName (value : JVal) : JVal → Option JVal
  | .obj ms => some (.obj (ms.set "name".toList value))
  | .arr xs => some (.arr xs)
  | _ => none

/-- Whether `typeof v === 'object'`. -/
def isTypeofObject : JVal → Bool
  | .null => true
  | .arr _ => true
  | .obj _ => true
  | _ => false

/-- Body of the `try` at lines 522-550 for the configuration found: the
value of `mcpSchemaForQuery` (`none`: `null`, which is also what the `catch`
leaves after any exception). -/
def schemaOfConfig (parse : List Char → Option JVal) (savedConfig : McpConfig) :
    Option (List Char) :=
  match parse savedConfig.schema with
  | none => none
  | some parsedSchema =>
    match parsedSchema.getProp "mcpServers".toList with
    | none => none
    | some servers =>
      match servers with
      | some container =>
        if jsTruthy (some container) && isTypeofObject container then
          match objectKeys container with
          | [] => none
          | firstServerName :: _ =>
            match containerGet firstServerName container with
            | none => none
            | some serverConfig =>
              let name := if savedConfig.name ≠ [] then savedConfig.name else firstServerName
              (assignName (.str name) serverConfig).map JVal.stringify
        else
          (assignName (.str savedConfig.name) parsedSchema).map JVal.stringify
      | none =>
        (assignName (.str savedConfig.name) parsedSchema).map JVal.stringify

/-- The pair `(mcp_enabled, mcp_schema)` computed by `handleChatSubmit`:
`mcpEnabled` is the truthiness of `gptData?.mcpEnabled`, `selected` the value
of `selectedMcpServerName` (`none`: `null`). -/
def resolveMcp (parse : List Char → Option JVal) (mcpEnabled : Bool)
    (selected : Option (List Char)) (savedMcpConfigs : List McpConfig) :
    Bool × Option (List Char) :=
  match selected with
  | none => (false, none)
  | some sel =>
    if mcpEnabled && sel ≠ [] then
      match savedMcpConfigs.find? (fun c => c.id = sel) with
      | some savedConfig => (true, schemaOfConfig parse savedConfig)
      | none => (true, none)
    else (false, none)

/-- A configuration whose document lists the servers `alpha` and `beta`. -/
def alphaBetaConfig : McpConfig :=
  { id := "cfg1".toList, name := "My tools".toList,
    schema := "\x7b\"mcpServers\":\x7b\"alpha\":\x7b\"command\":\"npx\"\x7d,\"beta\":\x7b\"command\":\"uvx\"\x7d\x7d\x7d".toList }

/-- A configuration whose document lists the server `beta` first and a
server named `1` second. -/
def betaOneConfig : McpConfig :=
  { id := "cfg2".toList, name := "My tools".toList,
    schema := "\x7b\"mcpServers\":\x7b\"beta\":\x7b\"command\":\"uvx\"\x7d,\"1\":\x7b\"command\":\"npx\"\x7d\x7d\x7d".toList }

/-! ## Event-stream decoding (`handleStreamingResponse`) -/

/-- Put a character in front of the first piece. -/
def consHead (c : Char) : List (List Char) → List (List Char)
  | [] => [[c]]
  | p :: ps => (c :: p) :: ps

/-- Model of `chunk.split('\n\n')`. -/
def splitBlankLine : List Char → List (List Char)
  | [] => [[]]
  | [c] => [[c]]
  | c :: d :: rest =>
    if c = '\n' ∧ d = '\n' then [] :: splitBlankLine rest
    else consHead c (splitBlankLine (d :: rest))

/-- The filter `line.trim().startsWith('data: ')`. -/
def isDataLine (line : List Char) : Bool :=
  "data: ".toList.isPrefixOf (jsTrim line)

/-- The `lines` of one chunk (line 645). -/
def chunkLines (chunk : List Char) : List (List Char) :=
  (splitBlankLine chunk).filter isDataLine

/-- The variables of `handleStreamingResponse` that the loop updates;
`streamError = none` is the initial `null`. -/
structure StreamState where
  buffer : List Char
  doneStreaming : Bool
  streamError : Option JVal
deriving DecidableEq, Repr

/-- State at entry of the loop. -/
def StreamState.init : StreamState :=
  { buffer := [], doneStreaming := false, streamError := none }

/-- The final `streamingMessage`: its `content` and `isError`; the same
`content` is the text passed to `saveMessageToHistory`. -/
structure StreamResult where
  content : List Char
  isError : Bool
deriving DecidableEq, Repr

/-- Lines 653-663, the branch taken when `parsed.type === 'error' ||
parsed.error`: `streamError` is set, then the buffer is replaced by the error
text and the loop is left.  If the conversion of `streamError` to text throws,
the exception is caught after `streamError` was set and the loop goes on. -/
def handleErrorFrame (st : StreamState) (parsed : JVal) : StreamState × Bool :=
  let error := (parsed.getProp "error".toList).getD none
  let detail := (parsed.getProp "detail".toList).getD none
  let streamError : Option JVal :=
    if jsTruthy error then error
    else if jsTruthy detail then detail
    else some (.str "Unknown streaming error".toList)
  match jsToString streamError with
  | none => ({ st with streamError := streamError }, false)
  | some text =>
    ({ buffer := "Error: ".toList ++ text, doneStreaming := true, streamError := streamError },
      true)

/-- Line 672, `buffer += parsed.data`. -/
def handleContentFrame (st : StreamState) (parsed : JVal) : StreamState × Bool :=
  match jsToString ((parsed.getProp "data".toList).getD none) with
  | none => (st, false)
  | some text => ({ st with buffer := st.buffer ++ text }, false)

/-- Lines 682-683: `sourcesInfo = parsed.data` and the summary appended to
the buffer; reading a property of an `undefined` or `null` `sourcesInfo`
throws. -/
def handleSourcesFrame (st : StreamState) (parsed : JVal) : StreamState × Bool :=
  match (parsed.getProp "data".toList).getD none with
  | none => (st, false)
  | some sourcesInfo =>
    match sourcesInfo.getProp "documents_retrieved_count".toList,
          sourcesInfo.getProp "retrieval_time_ms".toList with
    | some count, some time =>
      match jsToString count, jsToString time with
      | some c, some t =>
        ({ st with buffer := st.buffer ++ "\n\n[Sources Retrieved: ".toList ++ c ++
            " documents, ".toList ++ t ++ "ms]".toList }, false)
      | _, _ => (st, false)
    | _, _ => (st, false)

/-- Lines 652-684 for a parsed payload: the new state and whether the loop
is left by `break`.  Reading `parsed.type` of `null` throws. -/
def handleParsed (st : StreamState) (parsed : JVal) : StreamState × Bool :=
  match parsed.getProp "type".toList with
  | none => (st, false)
  | some type =>
    if type = some (.str "error".toList) || jsTruthy ((parsed.getProp "error".toList).getD none)
    then handleErrorFrame st parsed
    else if type = some (.str "done".toList) then ({ st with doneStreaming := true }, true)
    else if type = some (.str "content".toList) then handleContentFrame st parsed
    else if type = some (.str "sources_info".toList) then handleSourcesFrame st parsed
    else (st, false)

/-- Body of the `for` loop for one line (lines 648-687): the new state and
whether the loop is left by `break`.  An exception inside the `try` is
caught and the loop goes on with the state as it was when it was thrown.
`line.substring(6)` removes six UTF-16 code units; on a line that passed the
filter these are six characters (whitespace or part of `data: `), hence
`line.drop 6`. -/
def handleLine (parse : List Char → Option JVal) (st : StreamState) (line : List Char) :
    StreamState × Bool :=
  match parse (line.drop 6) with
  | none => (st, false)
  | some parsed => handleParsed st parsed

/-- The `for` loop over the lines of one chunk, left at the first `break`. -/
def processLines (parse : List Char → Option JVal) : StreamState → List (List Char) → StreamState
  | st, [] => st
  | st, line :: rest =>
    let r := handleLine parse st line
    if r.2 then r.1 else processLines parse r.1 rest

/-- The `while (!doneStreaming)` loop over the chunks that `reader.read()`
delivers before it reports the end of the data. -/
def readChunks (parse : List Char → Option JVal) : StreamState → List (List Char) → StreamState
  | st, [] => st
  | st, chunk :: rest =>
    if st.doneStreaming then st
    else readChunks parse (processLines parse st (chunkLines chunk)) rest

/-- The fallback text of line 693. -/
def noResponseText : List Char :=
  "No response generated. Please try rephrasing your query or check the uploaded documents.".toList

/-- Lines 691-703: the fallback for an empty buffer without error, and the
final message. -/
def finishStream (st : StreamState) : StreamResult :=
  if st.buffer = [] ∧ jsTruthy st.streamError = false then
    { content := noResponseText, isError := true }
  else
    { content := st.buffer, isError := jsTruthy st.streamError }

/-- Model of `handleStreamingResponse` on a body that delivers `chunks` and
then ends. -/
def handleStreamingResponse (parse : List Char → Option JVal) (chunks : List (List Char)) :
    StreamResult :=
  finishStream { readChunks parse StreamState.init chunks with doneStreaming := true }

/-- The frames of a stream: the results of parsing, in order, the payloads
of the lines of all chunks (`none`: the payload does not parse).  This is a
view of what the loop is given, not a part of the loop: the loop is
`readChunks`, it decodes the frames in this order and stops at the first done
or error frame, and the state it reaches is determined by this list
(`same_frames_same_response`). -/
def streamFrames (parse : List Char → Option JVal) (chunks : List (List Char)) :
    List (Option JVal) :=
  (chunks.flatMap chunkLines).map fun line => parse (line.drop 6)

/-- The event-stream text of a list of records: each record followed by the
blank-line separator. -/
def encodeRecords (records : List (List Char)) : List Char :=
  records.flatMap fun r => r ++ ['\n', '\n']

/-- The pieces of the text of a list of records between which a chunk may
end without cutting a record: each record, then each of the two line feeds of
its separator. -/
def recordTokens (records : List (List Char)) : List (List Char) :=
  records.flatMap fun r => [r, ['\n'], ['\n']]

/-- The line feeds of a separator that are still to come when a chunk ended
between a record and its separator (2) or inside the separator (1). -/
def pendingTokens (n : Nat) : List (List Char) :=
  List.replicate n ['\n']

/-- A well-formed record: a non-empty single line which, if it passes the
filter, begins with the literal `data: `. -/
def isWellFormedRecord (r : List Char) : Prop :=
  '\n' ∉ r ∧ r ≠ [] ∧ (isDataLine r = true → "data: ".toList <+: r)

instance (r : List Char) : Decidable (isWellFormedRecord r) := by
  unfold isWellFormedRecord
  infer_instance

/-- Two lines are handled alike: both pass the filter or both fail it, and
when they pass, the texts handed to the parser give the same result. -/
def sameFrame (parse : List Char → Option JVal) (a b : List Char) : Prop :=
  isDataLine a = isDataLine b ∧ (isDataLine b = true → parse (a.drop 6) = parse (b.drop 6))

/-- The branch of the loop body that a parsed payload takes. -/
inductive FrameKind where
  | error
  | done
  | content
  | sourcesInfo
  | other
deriving DecidableEq, Repr

/-- Classification of a parsed payload by the conditions of lines 652, 666,
671 and 681, in that order (`other`: no branch is taken, or reading
`parsed.type` throws). -/
def frameKind (parsed : JVal) : FrameKind :=
  match parsed.getProp "type".toList with
  | none => .other
  | some type =>
    if type = some (.str "error".toList) || jsTruthy ((parsed.getProp "error".toList).getD none)
    then .error
    else if type = some (.str "done".toList) then .done
    else if type = some (.str "content".toList) then .content
    else if type = some (.str "sources_info".toList) then .sourcesInfo
    else .other

/-- The record `r` is a single line that passes the filter and whose payload
parses to a content frame carrying the text `d`. -/
def isContentRecord (parse : List Char → Option JVal) (r d : List Char) : Prop :=
  '\n' ∉ r ∧ isDataLine r = true ∧
    ∃ parsed, parse (r.drop 6) = some parsed ∧ frameKind parsed = .content ∧
      parsed.getProp "data".toList = some (some (.str d))

/-- The record `r` is a single line that passes the filter and whose payload
parses to a done frame. -/
def isDoneRecord (parse : List Char → Option JVal) (r : List Char) : Prop :=
  '\n' ∉ r ∧ isDataLine r = true ∧
    ∃ parsed, parse (r.drop 6) = some parsed ∧ frameKind parsed = .done

/-- The record carrying the content frame "Hi". -/
def hiRecord : List Char := "data: \x7b\"type\":\"content\",\"data\":\"Hi\"\x7d".toList

/-- The record carrying the content frame " there". -/
def thereRecord : List Char := "data: \x7b\"type\":\"content\",\"data\":\" there\"\x7d".toList

/-- The record carrying the done frame. -/
def doneRecord : List Char := "data: \x7b\"type\":\"done\"\x7d".toList

/-- The record carrying an error frame with the text "boom". -/
def boomRecord : List Char := "data: \x7b\"type\":\"error\",\"error\":\"boom\"\x7d".toList

/-- The record carrying an error frame whose error text is empty. -/
def emptyErrorRecord : List Char := "data: \x7b\"type\":\"error\",\"error\":\"\"\x7d".toList

/-- The record carrying a sources frame: 3 documents in 12 ms. -/
def sourcesRecord : List Char :=
  ("data: \x7b\"type\":\"sources_info\",\"data\":" ++
    "\x7b\"documents_retrieved_count\":3,\"retrieval_time_ms\":12\x7d\x7d").toList

/-- The parsed payload of `hiRecord`. -/
def hiFrame : JVal :=
  .obj (.cons "type".toList (.str "content".toList) (.cons "data".toList (.str "Hi".toList) .nil))

/-- The parsed payload of `thereRecord`. -/
def thereFrame : JVal :=
  .obj (.cons "type".toList (.str "content".toList)
    (.cons "data".toList (.str " there".toList) .nil))

/-- The parsed payload of `doneRecord`. -/
def doneFrame : JVal :=
  .obj (.cons "type".toList (.str "done".toList) .nil)

/-- The parsed payload of `boomRecord`. -/
def boomFrame : JVal :=
  .obj (.cons "type".toList (.str "error".toList) (.cons "error".toList (.str "boom".toList) .nil))

/-- The record carrying a frame of a type the component does not handle. -/
def pingRecord : List Char := "data: \x7b\"type\":\"ping\"\x7d".toList

/-- The parsed payload of `pingRecord`. -/
def pingFrame : JVal :=
  .obj (.cons "type".toList (.str "ping".toList) .nil)

/-! ## History persistence (`saveMessageToHistory`) and turn submission (`handleChatSubmit`)

In the records below an empty text also stands for a field that is missing:
the component reads these fields only through `!x` and `x || default`, which
treat both alike. -/

/-- The fields of `gptData` that the component reads when a turn is
submitted. -/
structure GptData where
  id : List Char
  name : List Char
  model : List Char
  instructions : List Char
  mcpEnabled : Bool
  hybridSearch : Bool
  webBrowsing : Bool
deriving DecidableEq, Repr

/-- The component state read by `handleChatSubmit` and
`saveMessageToHistory`; `gptData = none` is `null`. -/
structure Session where
  gptId : Option (List Char)
  userId : List Char
  userEmail : List Char
  gptData : Option GptData
  conversationMemory : List Turn
  userDocuments : List (List Char)
  webSearchEnabled : Bool
  apiKeys : JVal
  selectedMcpServerName : Option (List Char)
  savedMcpConfigs : List McpConfig
deriving DecidableEq, Repr

/-- Model of `x || d` on texts. -/
def orDefault (x d : List Char) : List Char :=
  if x ≠ [] then x else d

/-- Body of the request to `/api/chat-history/save` (lines 469-476). -/
structure HistoryPayload where
  userId : List Char
  gptId : List Char
  gptName : List Char
  message : List Char
  role : List Char
  model : List Char
deriving DecidableEq, Repr

/-- The payload of lines 469-476: the message is sent trimmed. -/
def historyPayload (userId : List Char) (gptData : GptData) (message role : List Char) :
    HistoryPayload :=
  { userId := userId, gptId := gptData.id,
    gptName := orDefault gptData.name "AI Assistant".toList,
    message := jsTrim message, role := role,
    model := orDefault gptData.model "gpt-4o-mini".toList }

/-- The request that `saveMessageToHistory(message, role)` issues: none when
the guard of line 459 fails (`!user?._id || !gptData || !message ||
!message.trim()`), otherwise the payload with the message trimmed. -/
def historyRequest (s : Session) (message role : List Char) : Option HistoryPayload :=
  match s.gptData with
  | none => none
  | some gptData =>
    if s.userId = [] ∨ message = [] ∨ jsTrim message = [] then none
    else some (historyPayload s.userId gptData message role)

/-- Value returned by `saveMessageToHistory`: `null`, or `response.data`. -/
inductive SaveResult where
  | null
  | data (d : Option JVal)
deriving DecidableEq, Repr

/-- What `saveMessageToHistory` did: the requests it issued and the value it
returned. -/
structure SaveOutcome where
  requests : List HistoryPayload
  result : SaveResult
deriving DecidableEq, Repr

/-- Model of `saveMessageToHistory(message, role)` (lines 457-487); `reply`
is the outcome of the `axiosInstance.post` if it is issued.  A rejected
request is caught (lines 483-486) and gives `null`. -/
def saveMessageToHistory (s : Session) (message role : List Char) (reply : Reply) :
    SaveOutcome :=
  match historyRequest s message role with
  | none => { requests := [], result := .null }
  | some payload =>
    match reply with
    | .rejected => { requests := [payload], result := .null }
    | .response data => { requests := [payload], result := .data data }

/-- One entry of the `history` field: `{ role, content }`. -/
structure HistoryEntry where
  role : List Char
  content : List Char
deriving DecidableEq, Repr

/-- Body of the request to `/chat-stream` (lines 557-571). -/
structure ChatPayload where
  message : List Char
  gpt_id : Option (List Char)
  user_email : List Char
  gpt_name : List Char
  history : List HistoryEntry
  memory : List Turn
  user_documents : List (List Char)
  use_hybrid_search : Bool
  system_prompt : Option (List Char)
  web_search_enabled : Bool
  api_keys : JVal
  mcp_enabled : Bool
  mcp_schema : Option (List Char)
deriving DecidableEq, Repr

/-- The `{ role, content }` of a memory entry (line 507). -/
def entryOfTurn (msg : Turn) : HistoryEntry :=
  { role := msg.role, content := msg.content }

/-- The value of `recentHistory` (lines 505-507): the memory followed by the
new user turn, the last 10 of them, each reduced to role and content. -/
def recentHistory (memory : List Turn) (message : List Char) : List HistoryEntry :=
  sliceLast 10 (memory.map entryOfTurn ++ [{ role := "user".toList, content := message }])

/-- The payload built by `handleChatSubmit(message)` (lines 505-571). -/
def chatPayload (parse : List Char → Option JVal) (s : Session) (message : List Char) :
    ChatPayload :=
  let mcp := resolveMcp parse ((s.gptData.map fun g => g.mcpEnabled).getD false)
    s.selectedMcpServerName s.savedMcpConfigs
  { message := message
    gpt_id := s.gptId
    user_email := orDefault s.userEmail "unknown_user".toList
    gpt_name := orDefault ((s.gptData.map fun g => g.name).getD []) "unknown_gpt".toList
    history := recentHistory s.conversationMemory message
    memory := s.conversationMemory
    user_documents := s.userDocuments
    use_hybrid_search := (s.gptData.map fun g => g.hybridSearch).getD false
    system_prompt :=
      match s.gptData with
      | some g => if g.instructions ≠ [] then some g.instructions else none
      | none => none
    web_search_enabled :=
      s.webSearchEnabled && (s.gptData.map fun g => g.webBrowsing).getD false
    api_keys := s.apiKeys
    mcp_enabled := mcp.1
    mcp_schema := mcp.2 }

/-- How the body of a response ends: `reader.read()` reports the end of the
data, or it rejects with an error of the given message. -/
inductive StreamEnd where
  | eof
  | readError (message : List Char)
deriving DecidableEq, Repr

/-- The final message of `handleStreamingResponse` on a body that delivers
`chunks` and then ends as `ending` says.  A failing read is reached only if
no frame ended the loop before; the `catch` of lines 706-718 then shows (and
saves) the text of the read error. -/
def streamOutcome (parse : List Char → Option JVal) (chunks : List (List Char))
    (ending : StreamEnd) : StreamResult :=
  match ending with
  | .eof => handleStreamingResponse parse chunks
  | .readError message =>
    if (readChunks parse StreamState.init chunks).doneStreaming then
      handleStreamingResponse parse chunks
    else
      { content := "Error reading response stream: ".toList ++ message, isError := true }

/-- Outcome of the `fetch` of `/chat-stream`: it rejects with an error of the
given message, or it resolves to a response that is not `ok`, or to an `ok`
response without body, or to an `ok` response with a body. -/
inductive ChatReply where
  | fetchRejected (message : List Char)
  | notOk (status : Nat) (statusText : List Char)
  | noBody
  | body (chunks : List (List Char)) (ending : StreamEnd)
deriving DecidableEq, Repr

/-- The observable steps of one submission, in the order they happen: a
history-save request is issued, the chat request is sent, the final
assistant message (`isStreaming: false`) is set. -/
inductive SubmitEffect where
  | saveHistory (payload : HistoryPayload)
  | sendChat (payload : ChatPayload)
  | finalMessage (message : StreamResult)
deriving DecidableEq, Repr

/-- The `catch` of lines 598-610 for an error of message `m`: the message
shown and the text passed to `saveMessageToHistory`. -/
def transportFailure (s : Session) (m : List Char) : List SubmitEffect :=
  [.finalMessage { content := "Error: ".toList ++ m, isError := true }] ++
    ((historyRequest s ("Error processing request: ".toList ++ m) "assistant".toList).toList.map
      SubmitEffect.saveHistory)

/-- Model of `handleChatSubmit(message)` (lines 489-614) with the reply of
the server to the chat request: nothing for a blank message; otherwise the
save of the user turn, the chat request, and then either the transport
failure path or `handleStreamingResponse`, whose final message is set before
its text is passed to `saveMessageToHistory` (lines 697-705). -/
def handleChatSubmit (parse : List Char → Option JVal) (s : Session) (message : List Char)
    (reply : ChatReply) : List SubmitEffect :=
  if jsTrim message = [] then []
  else
    (historyRequest s message "user".toList).toList.map SubmitEffect.saveHistory ++
      [.sendChat (chatPayload parse s message)] ++
      match reply with
      | .fetchRejected m => transportFailure s m
      | .notOk status statusText =>
        transportFailure s
          ("Server responded with ".toList ++ natText status ++ ": ".toList ++ statusText)
      | .noBody => transportFailure s "Received empty response body".toList
      | .body chunks ending =>
        [.finalMessage (streamOutcome parse chunks ending)] ++
          ((historyRequest s (streamOutcome parse chunks ending).content
            "assistant".toList).toList.map SubmitEffect.saveHistory)

/-- The texts of the history-save requests issued for the given role. -/
def savedTexts (role : List Char) (effects : List SubmitEffect) : List (List Char) :=
  effects.filterMap fun e =>
    match e with
    | .saveHistory payload => if payload.role = role then some payload.message else none
    | _ => none

/-- The final assistant messages set. -/
def finalMessages (effects : List SubmitEffect) : List StreamResult :=
  effects.filterMap fun e =>
    match e with
    | .finalMessage message => some message
    | _ => none

/-- A record with the given payload: the literal `data: ` and the payload. -/
def dataRecord (payload : List Char) : List Char :=
  "data: ".toList ++ payload

/-- An assistant with every optional capability switched off. -/
def demoGpt : GptData :=
  { id := "gpt1".toList, name := "Helper".toList, model := "gpt-4o-mini".toList,
    instructions := [], mcpEnabled := false, hybridSearch := false, webBrowsing := false }

/-- A session with a resolved identity and assistant and an empty memory. -/
def demoSession : Session :=
  { gptId := some "gpt1".toList, userId := "u1".toList, userEmail := "u1@example.com".toList,
    gptData := some demoGpt, conversationMemory := [], userDocuments := [],
    webSearchEnabled := false, apiKeys := emptyKeys, selectedMcpServerName := none,
    savedMcpConfigs := [] }

/-- A configuration whose schema text is not JSON. -/
def brokenConfig : McpConfig :=
  { id := "cfg3".toList, name := "Broken".toList, schema := "not json".toList }

/-- A configuration whose `mcpServers` container has no entries. -/
def emptyServersConfig : McpConfig :=
  { id := "cfg4".toList, name := "Empty".toList,
    schema := "\x7b\"mcpServers\":\x7b\x7d\x7d".toList }

/-- A configuration whose document is a single server definition. -/
def singleServerConfig : McpConfig :=
  { id := "cfg5".toList, name := "My server".toList,
    schema := "\x7b\"command\":\"uvx\",\"name\":\"old\",\"args\":[\"a\"]\x7d".toList }

/-- The session `demoSession` with MCP enabled, the stored configurations
above and the given configuration selected. -/
def mcpSession (selected : List Char) : Session :=
  { demoSession with
    gptData := some { demoGpt with mcpEnabled := true }
    selectedMcpServerName := some selected
    savedMcpConfigs := [alphaBetaConfig, brokenConfig, emptyServersConfig, singleServerConfig] }

/-- The record carrying an error frame whose text ends with a space. -/
def spacedErrorRecord : List Char :=
  "data: \x7b\"type\":\"error\",\"error\":\"boom \"\x7d".toList

/-- The record carrying a content frame whose text is one space. -/
def blankContentRecord : List Char :=
  "data: \x7b\"type\":\"content\",\"data\":\" \"\x7d".toList

/-! ## Further records and the chunk counter -/

/-- The record of a payload that has an empty `error` text and no `type`. -/
def untypedEmptyErrorRecord : List Char := "data: \x7b\"error\":\"\"\x7d".toList

/-- The record of a payload that has the `error` text "boom" and no `type`. -/
def untypedBoomRecord : List Char := "data: \x7b\"error\":\"boom\"\x7d".toList

/-- The properties of the parsed payload of `untypedBoomRecord`. -/
def untypedBoomFields : JMembers := .cons "error".toList (.str "boom".toList) .nil

/-- The parsed payload of `sourcesRecord`. -/
def sourcesFrame : JVal :=
  .obj (.cons "type".toList (.str "sources_info".toList)
    (.cons "data".toList (.obj (.cons "documents_retrieved_count".toList (.num "3".toList)
      (.cons "retrieval_time_ms".toList (.num "12".toList) .nil))) .nil))

/-- The number of chunks that the `while (!doneStreaming)` loop takes from
`reader.read()` when the body delivers `chunks`: the loop of `readChunks`
with a counter. -/
def chunksRead (parse : List Char → Option JVal) : StreamState → List (List Char) → Nat
  | _, [] => 0
  | st, chunk :: rest =>
    if st.doneStreaming then 0
    else 1 + chunksRead parse (processLines parse st (chunkLines chunk)) rest

/-- The payload of the content frame "x". -/
def xPayload : List Char := "\x7b\"type\":\"content\",\"data\":\"x\"\x7d".toList

/-- A record of two lines: the line `event: message`, then the data line of
the content frame "x". -/
def eventDataRecord : List Char := "event: message".toList ++ '\n' :: dataRecord xPayload

/-- The record of "Hi" preceded by two spaces. -/
def indentedHiRecord : List Char := ' ' :: ' ' :: hiRecord

/-! ## The displayed streaming turn (`streamingMessage`) -/

/-- The fields of `streamingMessage` that the updates of a stream read or
write; `id = none` is a missing `id`. -/
structure StreamingMessage where
  id : Option Nat
  content : List Char
  isStreaming : Bool
  isError : Bool
deriving DecidableEq, Repr

/-- The component state shared by all open calls of
`handleStreamingResponse`: the displayed streaming turn (`none`: `null`) and
the conversation memory.  The buffer of a stream is a local variable of its
own call and is not part of this state. -/
structure ChatView where
  streamingMessage : Option StreamingMessage
  conversationMemory : List Turn
deriving DecidableEq, Repr

/-- The state changes that a submission and an open stream cause, one per
render; `buffer` is the local buffer of the stream that issues the update.
`submit`: lines 509-510 of `handleChatSubmit`.  `streamOpened`: the message
object of a stream that starts, lines 627-634.  `contentFrame`: the
functional update after a content frame, lines 673-678.  `streamFinished`:
the functional update at the end of a stream, lines 697-703, followed by the
effect of lines 724-741 at time `now`.  `cleared`: the timer of that effect,
lines 743-746. -/
inductive ViewEvent where
  | submit (message : List Char) (now : Nat)
  | streamOpened (messageId : Nat)
  | contentFrame (buffer : List Char)
  | streamFinished (buffer : List Char) (isError : Bool) (now : Nat)
  | cleared
deriving DecidableEq, Repr

/-- One state change.  A functional update spreads the message it finds, so
it keeps the `id` of that message, whichever stream had set it, and makes a
message without `id` when it finds `null`.  No update compares the stream
that issues it with the stream that made the displayed message. -/
def viewStep (v : ChatView) : ViewEvent → ChatView
  | .submit message now =>
    if jsTrim message = [] then v
    else { streamingMessage := none,
           conversationMemory := submitMemory message now v.conversationMemory }
  | .streamOpened messageId =>
    { streamingMessage :=
        some { id := some messageId, content := [], isStreaming := true, isError := false },
      conversationMemory := v.conversationMemory }
  | .contentFrame buffer =>
    { streamingMessage :=
        some { id := v.streamingMessage.bind fun m => m.id, content := buffer,
               isStreaming := true, isError := false },
      conversationMemory := v.conversationMemory }
  | .streamFinished buffer isError now =>
    { streamingMessage :=
        some { id := v.streamingMessage.bind fun m => m.id, content := buffer,
               isStreaming := false, isError := isError },
      conversationMemory := finalizeMemory buffer now v.conversationMemory }
  | .cleared => { streamingMessage := none, conversationMemory := v.conversationMemory }

/-- The state after a sequence of state changes. -/
def runView (events : List ViewEvent) (v : ChatView) : ChatView :=
  events.foldl viewStep v

/-- The state changes before the second submission of the example: the first
message was submitted and its stream has delivered "Old". -/
def firstStreamOpen : List ViewEvent :=
  [.submit "first".toList 1, .streamOpened 2, .contentFrame "Old".toList]

/-! ## Tool-schema registry (`mcpController.js`) -/

/-- A document of the `McpConfig` collection (models/McpConfig.js), without
its time stamps. -/
structure McpDoc where
  id : List Char
  name : List Char
  description : List Char
  schema : List Char
  createdBy : List Char
  isPublic : Bool
deriving DecidableEq, Repr

/-- The fields of `req.body` that the controllers read: `name`, `description`
and `schema` are texts or missing (`none`), `isPublic` is any JSON value or
missing. -/
structure McpBody where
  name : Option (List Char)
  description : Option (List Char)
  schema : Option (List Char)
  isPublic : Option JVal
deriving DecidableEq, Repr

/-- What a controller answers and writes: the HTTP status and the document
that `save()` wrote (`none`: nothing was written). -/
structure McpOutcome where
  status : Nat
  saved : Option McpDoc
deriving DecidableEq, Repr

/-- Result of `McpConfig.findById`: the query fails, finds nothing, or finds
a document. -/
inductive FindResult where
  | failed
  | missing
  | found (doc : McpDoc)
deriving DecidableEq, Repr

/-- The expression `x || fallback` for a text or missing `x`. -/
def textOr (x : Option (List Char)) (fallback : List Char) : List Char :=
  match x with
  | some t => if t = [] then fallback else t
  | none => fallback

/-- The expression `isPublic === true || isPublic === 'true'`. -/
def isPublicFlag (isPublic : Option JVal) : Bool :=
  isPublic = some (.bool true) || isPublic = some (.str "true".toList)

/-- The validation that `save()` runs with the schema of models/McpConfig.js:
`name` and `schema` are required, and a required text must not be empty. -/
def mcpValid (doc : McpDoc) : Bool :=
  doc.name ≠ [] && doc.schema ≠ []

/-- Model of `createMcpConfig` (lines 27-65) for the user `userId`; `newId`
is the identifier that the new document gets and `dbOk` tells whether the
database accepts the write.  `JSON.parse` of a missing schema throws.  The
fields `name` and `description` are trimmed when they are set (`trim: true`). -/
def createMcpConfig (parse : List Char → Option JVal) (userId newId : List Char) (dbOk : Bool)
    (body : McpBody) : McpOutcome :=
  match body.schema with
  | none => { status := 400, saved := none }
  | some schema =>
    match parse schema with
    | none => { status := 400, saved := none }
    | some _ =>
      let doc : McpDoc :=
        { id := newId
          name := jsTrim (body.name.getD [])
          description := jsTrim (textOr body.description "MCP Configuration".toList)
          schema := schema
          createdBy := userId
          isPublic := isPublicFlag body.isPublic }
      if mcpValid doc && dbOk then { status := 201, saved := some doc }
      else { status := 500, saved := none }

/-- The check of lines 124-133: a truthy schema that `JSON.parse` rejects. -/
def schemaRejected (parse : List Char → Option JVal) : Option (List Char) → Bool
  | some schema => schema ≠ [] && (parse schema).isNone
  | none => false

/-- Model of `updateMcpConfig` (lines 102-156) for the user `userId`. -/
def updateMcpConfig (parse : List Char → Option JVal) (userId : List Char)
    (lookup : FindResult) (dbOk : Bool) (body : McpBody) : McpOutcome :=
  match lookup with
  | .failed => { status := 500, saved := none }
  | .missing => { status := 404, saved := none }
  | .found mcpConfig =>
    if mcpConfig.createdBy ≠ userId then { status := 403, saved := none }
    else if schemaRejected parse body.schema then { status := 400, saved := none }
    else
      let doc : McpDoc :=
        { id := mcpConfig.id
          name := jsTrim (textOr body.name mcpConfig.name)
          description := jsTrim (textOr body.description mcpConfig.description)
          schema := textOr body.schema mcpConfig.schema
          createdBy := mcpConfig.createdBy
          isPublic := isPublicFlag body.isPublic }
      if mcpValid doc && dbOk then { status := 200, saved := some doc }
      else { status := 500, saved := none }

/-- A stored public configuration created by the user `u1`. -/
def publicDoc : McpDoc :=
  { id := "cfg1".toList, name := "Tools".toList, description := "MCP Configuration".toList,
    schema := "\x7b\"command\":\"npx\"\x7d".toList, createdBy := "u1".toList, isPublic := true }

/-- A body that only renames the configuration. -/
def renameBody : McpBody :=
  { name := some "Renamed".toList, description := none, schema := none, isPublic := none }

/-- A body that renames the configuration and submits the empty text as
schema. -/
def emptySchemaBody : McpBody :=
  { name := some "Renamed".toList, description := none, schema := some [], isPublic := none }

/-- A body whose schema is not JSON. -/
def brokenSchemaBody : McpBody :=
  { name := some "Renamed".toList, description := none, schema := some "\x7boops".toList,
    isPublic := some (.bool true) }


/-! ## Batch invitations (`InvitationController.js`) -/

/-- Model of `String.prototype.split` with a separator of one character. -/
def splitOnChar (sep : Char) : List Char → List (List Char)
  | [] => [[]]
  | c :: rest => if c = sep then [] :: splitOnChar sep rest else consHead c (splitOnChar sep rest)

/-- The `results` object of `processCsvInvitations`. -/
structure CsvResults where
  total : Int
  sent : Nat
  failed : Nat
  skipped : Nat
  errors : List (List Char)
deriving DecidableEq, Repr

/-- What the database and the mail service do for the e-mail address of one
row (lines 205-265): a user with that address exists, a pending invitation
exists, the invitation is saved and mailed, or one of the calls throws an
error with the given message. -/
inductive InviteOutcome where
  | existingUser
  | pendingInvitation
  | delivered
  | threw (message : List Char)
deriving DecidableEq, Repr

/-- The rows of the uploaded text (line 172): the pieces between line feeds
that are not blank. -/
def csvRows (csvData : List Char) : List (List Char) :=
  (splitOnChar '\n' csvData).filter fun row => jsTrim row ≠ []

/-- The prefix "Row " followed by the row number `i + 1` and a colon. -/
def rowLabel (i : Nat) : List Char :=
  "Row ".toList ++ natText (i + 1) ++ ": ".toList

/-- Body of the loop for the row of index `i` (lines 187-270). -/
def processRow (service : Nat → List Char → InviteOutcome) (i : Nat) (row : List Char)
    (results : CsvResults) : CsvResults :=
  let columns := (splitOnChar ',' row).map jsTrim
  match columns with
  | _ :: email :: _ =>
    if email = [] ∨ '@' ∉ email then
      { results with
        failed := results.failed + 1
        errors := results.errors ++
          [rowLabel i ++ "Invalid email format - ".toList ++ email] }
    else
      match service i email with
      | .existingUser =>
        { results with
          skipped := results.skipped + 1
          errors := results.errors ++
            [rowLabel i ++ "User already exists - ".toList ++ email] }
      | .pendingInvitation =>
        { results with
          skipped := results.skipped + 1
          errors := results.errors ++
            [rowLabel i ++ "Invitation already sent - ".toList ++ email] }
      | .delivered => { results with sent := results.sent + 1 }
      | .threw message =>
        { results with
          failed := results.failed + 1
          errors := results.errors ++ [rowLabel i ++ message ++ " - ".toList ++ email] }
  | _ =>
    { results with
      failed := results.failed + 1
      errors := results.errors ++
        [rowLabel i ++ "Invalid format - missing email column".toList] }

/-- The loop over the rows from index `i` on (line 186). -/
def processRows (service : Nat → List Char → InviteOutcome) :
    Nat → List (List Char) → CsvResults → CsvResults
  | _, [], results => results
  | i, row :: rest, results => processRows service (i + 1) rest (processRow service i row results)

/-- Model of `processCsvInvitations` (lines 156-280): the HTTP status and the
`results` reported with status 200.  `file` is the text of the uploaded file
(`none`: no file). -/
def processCsvInvitations (isAdmin : Bool) (file : Option (List Char))
    (service : Nat → List Char → InviteOutcome) : Nat × Option CsvResults :=
  if !isAdmin then (403, none)
  else
    match file with
    | none => (400, none)
    | some csvData =>
      let rows := csvRows csvData
      let results : CsvResults :=
        { total := (rows.length : Int) - 1, sent := 0, failed := 0, skipped := 0, errors := [] }
      (200, some (processRows service 1 (rows.drop 1) results))

/-- A mail service and database that accept every address. -/
def deliverAll : Nat → List Char → InviteOutcome :=
  fun _ _ => .delivered

/-- An uploaded text: header, one good row, one row without e-mail column. -/
def sampleCsv : List Char :=
  "name,email\nAnn,ann@example.com\nBob\n".toList

/-- A memory of twelve turns, user and assistant in alternation, with the
contents "turn 0" to "turn 11". -/
def twelveTurns : List Turn :=
  (List.range 12).map fun i =>
    { role := if i % 2 = 0 then "user".toList else "assistant".toList
      content := "turn ".toList ++ natText i
      timestamp := i }

/-- The demonstration session with the memory `twelveTurns`. -/
def longSession : Session :=
  { demoSession with conversationMemory := twelveTurns }

/-- Six question/answer exchanges: each submits "hi" and finalizes "ok". -/
def sixExchanges : List MemoryEvent :=
  (List.replicate 6
    [MemoryEvent.submit "hi".toList 0, MemoryEvent.finalize "ok".toList 0]).flatten

end UserChat

/-! ## Properties -/

namespace UserChat

/-! ### Conversation memory -/

/-- C1: starting from the empty memory, six question/answer exchanges leave
`conversationMemory` with 11 turns: the assistant-turn finalization appends
without truncating to 10. -/
theorem memory_eleven_after_six_exchanges :
    (runMemory sixExchanges []).length = 11 := by
  decide

/-! ### Credential resolution -/

/-- The outer `try` body always returns: no exception reaches the outer
`catch`. -/
theorem fetchAttempt_ok (hasUser : Bool) (net : Nat → Endpoint → Reply)
    (issued : List Endpoint) (delays : Nat) :
    ∃ r, fetchAttempt hasUser net issued delays = .ok r := by
  unfold fetchAttempt
  cases hasUser with
  | false => exact ⟨_, rfl⟩
  | true =>
    simp only [Bool.not_true, Bool.false_eq_true, if_false]
    split
    · exact ⟨_, rfl⟩
    · split
      · exact ⟨_, rfl⟩
      · split
        · exact ⟨_, rfl⟩
        · exact ⟨_, rfl⟩

/-- The retry count has no effect: the function returns what its first
attempt returns. -/
theorem fetchApiKeysFrom_eq_attempt (hasUser : Bool) (net : Nat → Endpoint → Reply)
    (retry : Nat) (issued : List Endpoint) (delays : Nat) :
    fetchApiKeysFrom hasUser net retry issued delays = fetchAttempt hasUser net issued delays := by
  obtain ⟨r, hr⟩ := fetchAttempt_ok hasUser net issued delays
  cases retry with
  | zero => simp [fetchApiKeysFrom, hr]
  | succ n => simp [fetchApiKeysFrom, hr]

/-- C6: when the identity-scoped request succeeds with a mapping that has at
least one value other than the empty string, that mapping is returned (and
stored) whatever the network would answer to any other request, and the only
request issued is the identity-scoped one. -/
theorem fetch_user_keys_preferred (net : Nat → Endpoint → Reply) (retry : Nat)
    (d : JVal) (ms : JMembers)
    (hreply : net 0 .userKeys = .response (some d))
    (hsuccess : jsTruthy ((d.getProp "success".toList).getD none) = true)
    (hkeys : d.getProp "apiKeys".toList = some (some (.obj ms)))
    (hvalue : ∃ v ∈ ms.values, v ≠ JVal.str []) :
    fetchApiKeysFromBackend true net retry =
      .ok { keys := .obj ms, requests := [.userKeys], delays := 0, stored := some (.obj ms) } := by
  have hk : replyKeys (some d) = .obj ms := by
    simp only [replyKeys, hkeys, Option.getD_some, jsTruthy, if_true]
  have hv : hasValidKeys (.obj ms) = true := by
    obtain ⟨v, hmem, hne⟩ := hvalue
    simp only [hasValidKeys, List.any_eq_true]
    exact ⟨v, hmem, by simpa using hne⟩
  simp only [fetchApiKeysFromBackend, fetchApiKeysFrom_eq_attempt, fetchAttempt, hreply,
    replySuccess, hsuccess, hk, hv, Bool.not_true, Bool.false_eq_true, if_false, if_true,
    List.length_nil, List.nil_append]

/-- Witness of C6 on `preferredNet`: the identity-scoped key is returned and
the shared endpoint is not asked. -/
theorem fetch_user_keys_preferred_witness :
    fetchApiKeysFromBackend true preferredNet 3 =
      .ok { keys := .obj (.cons "openai".toList (.str "sk-user".toList) .nil),
            requests := [.userKeys], delays := 0,
            stored := some (.obj (.cons "openai".toList (.str "sk-user".toList) .nil)) } :=
  fetch_user_keys_preferred preferredNet 3
    (.obj (.cons "success".toList (.bool true)
      (.cons "apiKeys".toList (.obj (.cons "openai".toList (.str "sk-user".toList) .nil)) .nil)))
    (.cons "openai".toList (.str "sk-user".toList) .nil)
    rfl (by decide) (by decide) ⟨.str "sk-user".toList, by decide, by decide⟩

/-- C7: with both requests rejected every time, the function (called with
the default `retry = 3`) issues each request once, waits not at all, and
returns `{}`: one attempt, no retry. -/
theorem fetch_all_rejected_single_attempt :
    fetchApiKeysFromBackend true allRejected 3 =
      .ok { keys := emptyKeys, requests := [.userKeys, .systemKeys], delays := 0,
            stored := none } := by
  rfl

/-- C8: for every identity state, every network behaviour and every retry
count the function returns (it does not throw), and what it returns is `{}`
or the `apiKeys || {}` of a response with truthy `success`; so it returns
`{}` when no request yields a successful response. -/
theorem fetch_never_throws (hasUser : Bool) (net : Nat → Endpoint → Reply) (retry : Nat) :
    ∃ r, fetchApiKeysFromBackend hasUser net retry = .ok r ∧
      (r.keys = emptyKeys ∨
        ∃ k e data, net k e = .response data ∧ jsTruthy (replySuccess data) = true ∧
          r.keys = replyKeys data) := by
  simp only [fetchApiKeysFromBackend, fetchApiKeysFrom_eq_attempt, fetchAttempt]
  cases hasUser with
  | false => exact ⟨_, rfl, Or.inl rfl⟩
  | true =>
    simp only [Bool.not_true, Bool.false_eq_true, if_false, List.length_nil, List.nil_append,
      List.length_singleton]
    cases hu : net 0 .userKeys with
    | rejected =>
      cases hs : net 1 .systemKeys with
      | rejected => exact ⟨_, rfl, Or.inl rfl⟩
      | response data2 =>
        by_cases h2 : jsTruthy (replySuccess data2) = true
        · simp only [h2, if_true]
          exact ⟨_, rfl, Or.inr ⟨1, .systemKeys, data2, hs, h2, rfl⟩⟩
        · simp only [h2, if_false]
          exact ⟨_, rfl, Or.inl rfl⟩
    | response data =>
      by_cases h1 : jsTruthy (replySuccess data) = true
      · by_cases hv : hasValidKeys (replyKeys data) = true
        · simp only [h1, hv, if_true]
          exact ⟨_, rfl, Or.inr ⟨0, .userKeys, data, hu, h1, rfl⟩⟩
        · simp only [h1, hv, if_true, if_false]
          cases hs : net 1 .systemKeys with
          | rejected => exact ⟨_, rfl, Or.inl rfl⟩
          | response data2 =>
            by_cases h2 : jsTruthy (replySuccess data2) = true
            · simp only [h2, if_true]
              exact ⟨_, rfl, Or.inr ⟨1, .systemKeys, data2, hs, h2, rfl⟩⟩
            · simp only [h2, if_false]
              exact ⟨_, rfl, Or.inl rfl⟩
      · simp only [h1, if_false]
        cases hs : net 1 .systemKeys with
        | rejected => exact ⟨_, rfl, Or.inl rfl⟩
        | response data2 =>
          by_cases h2 : jsTruthy (replySuccess data2) = true
          · simp only [h2, if_true]
            exact ⟨_, rfl, Or.inr ⟨1, .systemKeys, data2, hs, h2, rfl⟩⟩
          · simp only [h2, if_false]
            exact ⟨_, rfl, Or.inl rfl⟩

/-- C9: when the identity-scoped request is rejected, or is answered without
truthy `success`, or is answered with a mapping all of whose values are the
empty string, and the shared request is answered with truthy `success`, the
function returns (and stores) the shared response's `apiKeys || {}`; that is
`{}` when the response has no `apiKeys`. -/
theorem fetch_falls_back_to_system_keys (net : Nat → Endpoint → Reply) (retry : Nat)
    (d2 : JVal)
    (huser : net 0 .userKeys = .rejected ∨
      ∃ data, net 0 .userKeys = .response data ∧
        (jsTruthy (replySuccess data) = false ∨ hasValidKeys (replyKeys data) = false))
    (hsystem : net 1 .systemKeys = .response (some d2))
    (hsuccess : jsTruthy ((d2.getProp "success".toList).getD none) = true) :
    fetchApiKeysFromBackend true net retry =
        .ok { keys := replyKeys (some d2), requests := [.userKeys, .systemKeys], delays := 0,
              stored := some (replyKeys (some d2)) } ∧
      (d2.getProp "apiKeys".toList = some none → replyKeys (some d2) = emptyKeys) := by
  refine ⟨?_, fun h => by simp only [replyKeys, h, Option.getD_some]⟩
  have hs : jsTruthy (replySuccess (some d2)) = true := by
    simp only [replySuccess]
    exact hsuccess
  rcases huser with hrej | ⟨data, hresp, hbad⟩
  · simp [fetchApiKeysFromBackend, fetchApiKeysFrom_eq_attempt, fetchAttempt, hrej, hsystem, hs]
  · rcases hbad with hfalse | hinvalid
    · simp [fetchApiKeysFromBackend, fetchApiKeysFrom_eq_attempt, fetchAttempt, hresp, hfalse,
        hsystem, hs]
    · by_cases h1 : jsTruthy (replySuccess data) = true
      · simp [fetchApiKeysFromBackend, fetchApiKeysFrom_eq_attempt, fetchAttempt, hresp, h1,
          hinvalid, hsystem, hs]
      · simp [fetchApiKeysFromBackend, fetchApiKeysFrom_eq_attempt, fetchAttempt, hresp, h1,
          hsystem, hs]

/-- Witness of C9 on `fallbackNet`: the shared key is returned. -/
theorem fetch_falls_back_to_system_keys_witness :
    fetchApiKeysFromBackend true fallbackNet 3 =
        .ok { keys := .obj (.cons "openai".toList (.str "sk-system".toList) .nil),
              requests := [.userKeys, .systemKeys], delays := 0,
              stored := some (.obj (.cons "openai".toList (.str "sk-system".toList) .nil)) } :=
  (fetch_falls_back_to_system_keys fallbackNet 3
    (.obj (.cons "success".toList (.bool true)
      (.cons "apiKeys".toList (.obj (.cons "openai".toList (.str "sk-system".toList) .nil)) .nil)))
    (Or.inr ⟨_, rfl, Or.inr (by decide)⟩) rfl (by decide)).1

/-! ### Tool-schema resolution -/

/-- Defining a property whose name is not an array index keeps the first
property of a non-empty object first. -/
theorem JMembers.set_cons_head (k0 : List Char) (v0 : JVal) (rest : JMembers)
    (k : List Char) (v : JVal) (hk : arrayIndex? k = none) :
    ∃ v1 rest1, (JMembers.cons k0 v0 rest).set k v = .cons k0 v1 rest1 := by
  unfold JMembers.set
  cases hget : (JMembers.cons k0 v0 rest).get? k with
  | some w =>
    simp only [JMembers.replace]
    by_cases h : k0 = k
    · subst h
      simp only [if_true]
      exact ⟨_, _, rfl⟩
    · simp only [h, if_false]
      exact ⟨_, _, rfl⟩
  | none =>
    simp only [hk, JMembers.snoc]
    exact ⟨_, _, rfl⟩

/-- Defining in turn properties none of which is named by an array index
keeps the first property of a non-empty object first. -/
theorem foldl_set_cons_head (others : List (List Char × JVal))
    (hothers : ∀ e ∈ others, arrayIndex? e.1 = none) (k0 : List Char) (v0 : JVal)
    (rest : JMembers) :
    ∃ v1 rest1, others.foldl (fun ms e => ms.set e.1 e.2) (JMembers.cons k0 v0 rest) =
      .cons k0 v1 rest1 := by
  induction others generalizing v0 rest with
  | nil => exact ⟨_, _, rfl⟩
  | cons e es ih =>
    obtain ⟨v1, rest1, h1⟩ :=
      JMembers.set_cons_head k0 v0 rest e.1 e.2 (hothers e (List.mem_cons_self _ _))
    simp only [List.foldl_cons, h1]
    exact ih (fun x hx => hothers x (List.mem_cons_of_mem _ hx)) v1 rest1

/-- An object written with first member `first`, no later member being named
by an array index, enumerates `first` first. -/
theorem objectOfEntries_head (first : List Char) (v0 : JVal)
    (others : List (List Char × JVal)) (hothers : ∀ e ∈ others, arrayIndex? e.1 = none) :
    ∃ v1 rest1, objectOfEntries ((first, v0) :: others) = .cons first v1 rest1 := by
  have h0 : JMembers.nil.set first v0 = .cons first v0 .nil := by
    unfold JMembers.set
    simp only [JMembers.get?]
    cases arrayIndex? first <;> rfl
  simp only [objectOfEntries, List.foldl_cons, h0]
  exact foldl_set_cons_head others hothers first v0 .nil

/-- For a document that parses to an object whose `mcpServers` is a non-empty
object, the result is the serialization of the definition stored under the
first enumerated name, with `name` set to the display name (to that first
name when the display name is empty), provided the definition is an object. -/
theorem schemaOfConfig_first_enumerated (parse : List Char → Option JVal) (cfg : McpConfig)
    (top : JMembers) (first : List Char) (definition rest : JMembers)
    (hparse : parse cfg.schema = some (.obj top))
    (hservers : top.get? "mcpServers".toList = some (.obj (.cons first (.obj definition) rest))) :
    schemaOfConfig parse cfg =
      some (JVal.stringify (.obj (definition.set "name".toList
        (.str (if cfg.name ≠ [] then cfg.name else first))))) := by
  simp only [schemaOfConfig, hparse, JVal.getProp, hservers, jsTruthy, isTypeofObject,
    Bool.and_self, if_true, objectKeys, JMembers.keys, containerGet, JMembers.get?,
    assignName, Option.map_some']

/-- C5 (amended): for every configuration whose schema parses to an object
whose `mcpServers` container was written with first key `first` and with no
later key that is an array-index name, the resolution returns the
serialization of the server definition stored under `first` (an object),
with its `name` set to the configuration's display name (to `first` when the
display name is empty). -/
theorem schemaOfConfig_first_written (parse : List Char → Option JVal) (cfg : McpConfig)
    (top : JMembers) (first : List Char) (v0 : JVal) (others : List (List Char × JVal))
    (definition : JMembers)
    (hparse : parse cfg.schema = some (.obj top))
    (hservers : top.get? "mcpServers".toList =
      some (.obj (objectOfEntries ((first, v0) :: others))))
    (hothers : ∀ e ∈ others, arrayIndex? e.1 = none)
    (hdefinition : (objectOfEntries ((first, v0) :: others)).get? first =
      some (.obj definition)) :
    schemaOfConfig parse cfg =
      some (JVal.stringify (.obj (definition.set "name".toList
        (.str (if cfg.name ≠ [] then cfg.name else first))))) := by
  obtain ⟨v1, rest1, h1⟩ := objectOfEntries_head first v0 others hothers
  rw [h1] at hservers hdefinition
  simp only [JMembers.get?, if_true, Option.some.injEq] at hdefinition
  subst hdefinition
  exact schemaOfConfig_first_enumerated parse cfg top first definition rest1 hparse hservers

/-- Witness of C5 (amended): the document listing `alpha` then `beta`
resolves to the `alpha` server with the display name attached. -/
theorem schemaOfConfig_first_written_witness :
    schemaOfConfig jsonParse alphaBetaConfig =
      some "\x7b\"command\":\"npx\",\"name\":\"My tools\"\x7d".toList :=
  schemaOfConfig_first_written jsonParse alphaBetaConfig
    (.cons "mcpServers".toList
      (.obj (.cons "alpha".toList (.obj (.cons "command".toList (.str "npx".toList) .nil))
        (.cons "beta".toList (.obj (.cons "command".toList (.str "uvx".toList) .nil)) .nil)))
      .nil)
    "alpha".toList (.obj (.cons "command".toList (.str "npx".toList) .nil))
    [("beta".toList, .obj (.cons "command".toList (.str "uvx".toList) .nil))]
    (.cons "command".toList (.str "npx".toList) .nil)
    (by decide) (by decide) (by decide) (by decide)

/-- C5 (counterexample): in the document of `betaOneConfig` the key written
first is `beta`, yet the resolution returns the server written second, under
the key `1`, and not the `beta` server. -/
theorem schemaOfConfig_not_first_written :
    schemaOfConfig jsonParse betaOneConfig =
        some "\x7b\"command\":\"npx\",\"name\":\"My tools\"\x7d".toList ∧
      schemaOfConfig jsonParse betaOneConfig ≠
        some "\x7b\"command\":\"uvx\",\"name\":\"My tools\"\x7d".toList := by
  decide

/-! ### Event-stream decoding -/

/-- The flag `doneStreaming` after the error branch. -/
theorem handleErrorFrame_flag (st : StreamState) (parsed : JVal) :
    (handleErrorFrame st parsed).1.doneStreaming =
      ((handleErrorFrame st parsed).2 || st.doneStreaming) := by
  unfold handleErrorFrame
  simp only []
  split <;> simp

/-- The flag `doneStreaming` after the content branch. -/
theorem handleContentFrame_flag (st : StreamState) (parsed : JVal) :
    (handleContentFrame st parsed).1.doneStreaming =
      ((handleContentFrame st parsed).2 || st.doneStreaming) := by
  unfold handleContentFrame
  split <;> simp

/-- The flag `doneStreaming` after the sources branch. -/
theorem handleSourcesFrame_flag (st : StreamState) (parsed : JVal) :
    (handleSourcesFrame st parsed).1.doneStreaming =
      ((handleSourcesFrame st parsed).2 || st.doneStreaming) := by
  unfold handleSourcesFrame
  repeat' split
  all_goals simp

/-- The flag `doneStreaming` after a parsed payload. -/
theorem handleParsed_flag (st : StreamState) (parsed : JVal) :
    (handleParsed st parsed).1.doneStreaming =
      ((handleParsed st parsed).2 || st.doneStreaming) := by
  unfold handleParsed
  split
  · simp
  · split
    · exact handleErrorFrame_flag st parsed
    · split
      · simp
      · split
        · exact handleContentFrame_flag st parsed
        · split
          · exact handleSourcesFrame_flag st parsed
          · simp

/-- After one line the flag `doneStreaming` is set exactly when the loop was
left by `break` or the flag was set before. -/
theorem handleLine_flag (parse : List Char → Option JVal) (st : StreamState) (line : List Char) :
    (handleLine parse st line).1.doneStreaming =
      ((handleLine parse st line).2 || st.doneStreaming) := by
  unfold handleLine
  split
  · simp
  · exact handleParsed_flag st _

/-- The `for` loop over two runs of lines: the second run is reached only if
the first did not set `doneStreaming`. -/
theorem processLines_append (parse : List Char → Option JVal) (l1 l2 : List (List Char))
    (st : StreamState) (hst : st.doneStreaming = false) :
    processLines parse st (l1 ++ l2) =
      if (processLines parse st l1).doneStreaming then processLines parse st l1
      else processLines parse (processLines parse st l1) l2 := by
  induction l1 generalizing st with
  | nil => simp [processLines, hst]
  | cons line rest ih =>
    have hflag := handleLine_flag parse st line
    rw [hst, Bool.or_false] at hflag
    simp only [List.cons_append, processLines]
    cases hb : (handleLine parse st line).2 with
    | true =>
      rw [hb] at hflag
      simp [hflag]
    | false =>
      rw [hb] at hflag
      simp only [Bool.false_eq_true, if_false]
      exact ih _ hflag

/-- Once `doneStreaming` is set no further chunk is read. -/
theorem readChunks_done (parse : List Char → Option JVal) (chunks : List (List Char))
    (st : StreamState) (hst : st.doneStreaming = true) :
    readChunks parse st chunks = st := by
  cases chunks with
  | nil => rfl
  | cons c rest => simp [readChunks, hst]

/-- The `while` loop over the chunks is the `for` loop over the lines of all
chunks, in order. -/
theorem readChunks_eq_processLines (parse : List Char → Option JVal)
    (chunks : List (List Char)) (st : StreamState) (hst : st.doneStreaming = false) :
    readChunks parse st chunks = processLines parse st (chunks.flatMap chunkLines) := by
  induction chunks generalizing st with
  | nil => simp [readChunks, processLines]
  | cons c rest ih =>
    simp only [readChunks, hst, Bool.false_eq_true, if_false, List.flatMap_cons]
    rw [processLines_append parse _ _ st hst]
    cases hd : (processLines parse st (chunkLines c)).doneStreaming with
    | true => simp [readChunks_done parse rest _ hd]
    | false =>
      simp only [Bool.false_eq_true, if_false]
      exact ih _ hd

/-- A character other than the line feed stays in the first piece. -/
theorem splitBlankLine_cons (c : Char) (l : List Char) (hc : c ≠ '\n') (hl : l ≠ []) :
    splitBlankLine (c :: l) = consHead c (splitBlankLine l) := by
  cases l with
  | nil => exact absurd rfl hl
  | cons d rest => simp [splitBlankLine, hc]

/-- A record without line feed, followed by the separator, is the first
piece of the split. -/
theorem splitBlankLine_record (r rest : List Char) (hr : '\n' ∉ r) :
    splitBlankLine (r ++ '\n' :: '\n' :: rest) = r :: splitBlankLine rest := by
  induction r with
  | nil => simp [splitBlankLine]
  | cons c r1 ih =>
    have hc : c ≠ '\n' := fun h => hr (by simp [h])
    have hr1 : '\n' ∉ r1 := fun h => hr (List.mem_cons_of_mem _ h)
    rw [List.cons_append, splitBlankLine_cons c _ hc (by simp), ih hr1]
    rfl

/-- Splitting the text of a list of records gives the records and a final
empty piece. -/
theorem splitBlankLine_encodeRecords (records : List (List Char))
    (hrecords : ∀ r ∈ records, '\n' ∉ r) :
    splitBlankLine (encodeRecords records) = records ++ [[]] := by
  induction records with
  | nil => rfl
  | cons r rs ih =>
    have h1 : encodeRecords (r :: rs) = r ++ '\n' :: '\n' :: encodeRecords rs := by
      simp [encodeRecords]
    rw [h1, splitBlankLine_record r _ (hrecords r (List.mem_cons_self _ _)),
      ih (fun x hx => hrecords x (List.mem_cons_of_mem _ hx))]
    rfl

/-- The lines of the text of a list of records are the records that pass the
filter. -/
theorem chunkLines_encodeRecords (records : List (List Char))
    (hrecords : ∀ r ∈ records, '\n' ∉ r) :
    chunkLines (encodeRecords records) = records.filter isDataLine := by
  have hempty : isDataLine [] = false := by decide
  simp [chunkLines, splitBlankLine_encodeRecords records hrecords, List.filter_append, hempty]

/-- The lines of the chunks cut at record boundaries are the lines of the
whole text. -/
theorem flatMap_chunkLines_encodeRecords (groups : List (List (List Char)))
    (hrecords : ∀ g ∈ groups, ∀ r ∈ g, '\n' ∉ r) :
    (groups.map encodeRecords).flatMap chunkLines = groups.flatten.filter isDataLine := by
  induction groups with
  | nil => rfl
  | cons g gs ih =>
    simp only [List.map_cons, List.flatMap_cons, List.flatten_cons, List.filter_append]
    rw [chunkLines_encodeRecords g (hrecords g (List.mem_cons_self _ _)),
      ih (fun x hx => hrecords x (List.mem_cons_of_mem _ hx))]

/-- The result of the whole function in terms of the `for` loop over all
lines. -/
theorem handleStreamingResponse_eq (parse : List Char → Option JVal)
    (chunks : List (List Char)) :
    handleStreamingResponse parse chunks =
      finishStream { processLines parse StreamState.init (chunks.flatMap chunkLines) with
        doneStreaming := true } := by
  unfold handleStreamingResponse
  rw [readChunks_eq_processLines parse chunks StreamState.init rfl]

/-- For every parser and every list of single-line records, every grouping
of the records into consecutive chunks (each chunk made of whole records
with their blank-line separators) gives the same final content and error
flag as the whole text delivered as one chunk. -/
theorem chunks_at_record_boundaries (parse : List Char → Option JVal)
    (groups : List (List (List Char))) (hrecords : ∀ g ∈ groups, ∀ r ∈ g, '\n' ∉ r) :
    handleStreamingResponse parse (groups.map encodeRecords) =
      handleStreamingResponse parse [encodeRecords groups.flatten] := by
  rw [handleStreamingResponse_eq, handleStreamingResponse_eq,
    flatMap_chunkLines_encodeRecords groups hrecords]
  have hall : ∀ r ∈ groups.flatten, '\n' ∉ r := by
    intro r hr
    obtain ⟨g, hg, hrg⟩ := List.mem_flatten.mp hr
    exact hrecords g hg r hrg
  simp [chunkLines_encodeRecords groups.flatten hall]

/-- A payload classified as a done frame sets `doneStreaming` and leaves the
loop. -/
theorem handleParsed_done (st : StreamState) (parsed : JVal) (h : frameKind parsed = .done) :
    handleParsed st parsed = ({ st with doneStreaming := true }, true) := by
  unfold frameKind at h
  unfold handleParsed
  cases htype : parsed.getProp "type".toList with
  | none => simp only [htype] at h; exact absurd h (by decide)
  | some type =>
    simp only [htype] at h ⊢
    split at h
    · exact absurd h (by decide)
    · rename_i h1
      split at h
      · rename_i h2
        rw [if_neg h1, if_pos h2]
      · split at h
        · exact absurd h (by decide)
        · split at h <;> exact absurd h (by decide)

/-- A payload that takes no branch leaves the state as it is. -/
theorem handleParsed_other (st : StreamState) (parsed : JVal) (h : frameKind parsed = .other) :
    handleParsed st parsed = (st, false) := by
  unfold frameKind at h
  unfold handleParsed
  cases htype : parsed.getProp "type".toList with
  | none => rfl
  | some type =>
    simp only [htype] at h ⊢
    split at h
    · exact absurd h (by decide)
    · rename_i h1
      split at h
      · exact absurd h (by decide)
      · rename_i h2
        split at h
        · exact absurd h (by decide)
        · rename_i h3
          split at h
          · exact absurd h (by decide)
          · rename_i h4
            rw [if_neg h1, if_neg h2, if_neg h3, if_neg h4]

/-- A payload classified as a content frame appends the text of its `data`. -/
theorem handleParsed_content (st : StreamState) (parsed : JVal) (d : List Char)
    (h : frameKind parsed = .content)
    (hdata : parsed.getProp "data".toList = some (some (.str d))) :
    handleParsed st parsed = ({ st with buffer := st.buffer ++ d }, false) := by
  unfold frameKind at h
  unfold handleParsed
  cases htype : parsed.getProp "type".toList with
  | none => simp only [htype] at h; exact absurd h (by decide)
  | some type =>
    simp only [htype] at h ⊢
    split at h
    · exact absurd h (by decide)
    · rename_i h1
      split at h
      · exact absurd h (by decide)
      · rename_i h2
        split at h
        · rename_i h3
          rw [if_neg h1, if_neg h2, if_pos h3]
          simp only [handleContentFrame, hdata, Option.getD_some, jsToString, JVal.toText]
        · split at h <;> exact absurd h (by decide)

/-- A payload whose `error` is a non-empty text replaces the buffer by that
text after "Error: " and leaves the loop. -/
theorem handleParsed_error_text (st : StreamState) (parsed : JVal) (e : List Char)
    (herror : parsed.getProp "error".toList = some (some (.str e))) (hne : e ≠ []) :
    handleParsed st parsed =
      ({ buffer := "Error: ".toList ++ e, doneStreaming := true,
         streamError := some (.str e) }, true) := by
  have htruthy : jsTruthy (some (JVal.str e)) = true := by simp [jsTruthy, hne]
  unfold handleParsed
  cases htype : parsed.getProp "type".toList with
  | none =>
    cases parsed <;> simp [JVal.getProp] at htype herror
  | some type =>
    simp only [herror, Option.getD_some, htruthy, Bool.or_true, if_true, handleErrorFrame,
      jsToString, JVal.toText]

/-- The `for` loop over a run of content records followed by other lines:
the texts carried are appended in order and the loop goes on. -/
theorem processLines_content (parse : List Char → Option JVal)
    (records datas : List (List Char)) (tail : List (List Char))
    (hrecords : List.Forall₂ (isContentRecord parse) records datas) (st : StreamState) :
    processLines parse st (records ++ tail) =
      processLines parse { st with buffer := st.buffer ++ datas.flatten } tail := by
  induction hrecords generalizing st with
  | nil => simp
  | cons hr _ ih =>
    obtain ⟨_, _, parsed, hparse, hkind, hdata⟩ := hr
    rw [List.cons_append]
    simp only [processLines, handleLine, hparse, handleParsed_content st parsed _ hkind hdata,
      Bool.false_eq_true, if_false]
    rw [ih]
    simp only [List.flatten_cons, List.append_assoc]

/-- Every content record is a single line that passes the filter. -/
theorem contentRecords_lines (parse : List Char → Option JVal) (records datas : List (List Char))
    (hrecords : List.Forall₂ (isContentRecord parse) records datas) :
    ∀ r ∈ records, '\n' ∉ r ∧ isDataLine r = true := by
  induction hrecords with
  | nil => intro r hr; cases hr
  | cons h _ ih =>
    intro r hr
    rcases List.mem_cons.mp hr with rfl | hr
    · exact ⟨h.1, h.2.1⟩
    · exact ih r hr

/-- C3: for every list of content records whose texts are not all empty,
followed by a done record, and for every grouping of these records into
chunks of whole records, the final content is the concatenation of the texts
in order and the error flag is not set. -/
theorem content_frames_concatenate (parse : List Char → Option JVal)
    (records datas : List (List Char)) (final : List Char) (groups : List (List (List Char)))
    (hrecords : List.Forall₂ (isContentRecord parse) records datas)
    (hdone : isDoneRecord parse final)
    (hgroups : groups.flatten = records ++ [final])
    (hnonempty : datas.flatten ≠ []) :
    handleStreamingResponse parse (groups.map encodeRecords) =
      { content := datas.flatten, isError := false } := by
  have hmem : ∀ r ∈ records ++ [final], '\n' ∉ r ∧ isDataLine r = true := by
    intro r hr
    rcases List.mem_append.mp hr with h | h
    · exact contentRecords_lines parse records datas hrecords r h
    · rw [List.mem_singleton] at h
      subst h
      exact ⟨hdone.1, hdone.2.1⟩
  have hnl : ∀ g ∈ groups, ∀ r ∈ g, '\n' ∉ r := by
    intro g hg r hr
    exact (hmem r (hgroups ▸ List.mem_flatten.mpr ⟨g, hg, hr⟩)).1
  have hfilter : (records ++ [final]).filter isDataLine = records ++ [final] :=
    List.filter_eq_self.mpr fun r hr => (hmem r hr).2
  obtain ⟨_, _, parsed, hparse, hkind⟩ := hdone
  rw [handleStreamingResponse_eq, flatMap_chunkLines_encodeRecords groups hnl, hgroups, hfilter,
    processLines_content parse records datas [final] hrecords]
  simp only [processLines, handleLine, hparse, handleParsed_done _ parsed hkind, if_true,
    StreamState.init, List.nil_append, finishStream, hnonempty, false_and, if_false, jsTruthy]

/-- The `for` loop over lines none of which carries a content, sources or
error frame leaves buffer and `streamError` as they are. -/
theorem processLines_inert (parse : List Char → Option JVal) (lines : List (List Char))
    (hlines : ∀ line ∈ lines, ∀ parsed, parse (line.drop 6) = some parsed →
      frameKind parsed = .done ∨ frameKind parsed = .other) (st : StreamState) :
    (processLines parse st lines).buffer = st.buffer ∧
      (processLines parse st lines).streamError = st.streamError := by
  induction lines generalizing st with
  | nil => exact ⟨rfl, rfl⟩
  | cons line rest ih =>
    have hrest := ih (fun l hl => hlines l (List.mem_cons_of_mem _ hl))
    simp only [processLines, handleLine]
    cases hparse : parse (line.drop 6) with
    | none => simpa using hrest st
    | some parsed =>
      rcases hlines line (List.mem_cons_self _ _) parsed hparse with hk | hk
      · simp [handleParsed_done st parsed hk]
      · simpa [handleParsed_other st parsed hk] using hrest st

/-- C4 (amended): every stream in which no content frame, no sources frame
and no error frame is decoded produces the fallback text with the error flag
set, however it ends and whatever done frames, frames of other types and
unparseable records it carries. -/
theorem empty_stream_fallback (parse : List Char → Option JVal) (chunks : List (List Char))
    (hframes : ∀ chunk ∈ chunks, ∀ line ∈ chunkLines chunk, ∀ parsed,
      parse (line.drop 6) = some parsed →
        frameKind parsed = .done ∨ frameKind parsed = .other) :
    handleStreamingResponse parse chunks = { content := noResponseText, isError := true } := by
  have hlines : ∀ line ∈ chunks.flatMap chunkLines, ∀ parsed,
      parse (line.drop 6) = some parsed →
        frameKind parsed = .done ∨ frameKind parsed = .other := by
    intro line hline
    obtain ⟨chunk, hchunk, hmem⟩ := List.mem_flatMap.mp hline
    exact hframes chunk hchunk line hmem
  obtain ⟨hb, he⟩ := processLines_inert parse _ hlines StreamState.init
  rw [handleStreamingResponse_eq]
  simp only [finishStream]
  rw [hb, he]
  simp [StreamState.init, jsTruthy]

/-- C10 (amended): when the lines of a stream are `l1`, then a record whose
payload has a non-empty text `e` as its `error`, then `l2`, and the lines
`l1` do not end the stream, the final content is "Error: " followed by `e`
and the error flag is set, whatever `l1` and `l2` carry. -/
theorem error_frame_verbatim (parse : List Char → Option JVal) (chunks : List (List Char))
    (l1 : List (List Char)) (line : List Char) (l2 : List (List Char)) (parsed : JVal)
    (e : List Char)
    (hlines : chunks.flatMap chunkLines = l1 ++ line :: l2)
    (hl1 : (processLines parse StreamState.init l1).doneStreaming = false)
    (hparse : parse (line.drop 6) = some parsed)
    (herror : parsed.getProp "error".toList = some (some (.str e)))
    (hne : e ≠ []) :
    handleStreamingResponse parse chunks =
      { content := "Error: ".toList ++ e, isError := true } := by
  rw [handleStreamingResponse_eq, hlines, processLines_append parse l1 _ _ rfl, hl1]
  simp [processLines, handleLine, hparse, handleParsed_error_text _ parsed e herror hne,
    finishStream, jsTruthy, hne]

/-- C2 (counterexample): the text of one content record cut in the middle of
the record decodes no frame (the first half does not parse, the second half
fails the filter) and gives the fallback text with the error flag set, while
the same text as one chunk decodes the content frame and gives "Hi" without
error. -/
theorem chunks_mid_record_differ :
    streamFrames jsonParse
        ["data: \x7b\"type\":\"con".toList, "tent\",\"data\":\"Hi\"\x7d\n\n".toList] = [none] ∧
      streamFrames jsonParse
        ["data: \x7b\"type\":\"con".toList ++ "tent\",\"data\":\"Hi\"\x7d\n\n".toList] =
        [some hiFrame] ∧
      handleStreamingResponse jsonParse
        ["data: \x7b\"type\":\"con".toList, "tent\",\"data\":\"Hi\"\x7d\n\n".toList] =
        { content := noResponseText, isError := true } ∧
      handleStreamingResponse jsonParse
        ["data: \x7b\"type\":\"con".toList ++ "tent\",\"data\":\"Hi\"\x7d\n\n".toList] =
        { content := "Hi".toList, isError := false } ∧
      handleStreamingResponse jsonParse
        ["data: \x7b\"type\":\"con".toList, "tent\",\"data\":\"Hi\"\x7d\n\n".toList] ≠
      handleStreamingResponse jsonParse
        ["data: \x7b\"type\":\"con".toList ++ "tent\",\"data\":\"Hi\"\x7d\n\n".toList] := by
  decide

/-- Three records delivered as two chunks and as one give the same result. -/
theorem chunks_at_record_boundaries_witness :
    handleStreamingResponse jsonParse
        ([[hiRecord], [thereRecord, doneRecord]].map encodeRecords) =
      handleStreamingResponse jsonParse
        [encodeRecords [[hiRecord], [thereRecord, doneRecord]].flatten] :=
  chunks_at_record_boundaries jsonParse [[hiRecord], [thereRecord, doneRecord]] (by decide)

/-- Witness of C3: content "Hi", content " there", done, one record per
chunk, give exactly "Hi there" without error. -/
theorem content_frames_concatenate_witness :
    handleStreamingResponse jsonParse
        ([[hiRecord], [thereRecord], [doneRecord]].map encodeRecords) =
      { content := "Hi there".toList, isError := false } :=
  content_frames_concatenate jsonParse [hiRecord, thereRecord] ["Hi".toList, " there".toList]
    doneRecord [[hiRecord], [thereRecord], [doneRecord]]
    (.cons ⟨by decide, by decide, hiFrame, by decide, by decide, by decide⟩
      (.cons ⟨by decide, by decide, thereFrame, by decide, by decide, by decide⟩ .nil))
    ⟨by decide, by decide, doneFrame, by decide, by decide⟩
    (by decide) (by decide)

/-- C4 (counterexample): a stream carrying one sources frame and a done
frame, and no content frame, ends with the sources summary as content and
without error flag, not with the fallback text. -/
theorem sources_only_stream_no_fallback :
    handleStreamingResponse jsonParse [encodeRecords [sourcesRecord, doneRecord]] =
        { content := "\n\n[Sources Retrieved: 3 documents, 12ms]".toList, isError := false } ∧
      handleStreamingResponse jsonParse [encodeRecords [sourcesRecord, doneRecord]] ≠
        { content := noResponseText, isError := true } := by
  decide

/-- Witness of C4 (amended): a stream carrying only a frame of another type
and a done frame gives the fallback text. -/
theorem empty_stream_fallback_witness :
    handleStreamingResponse jsonParse [encodeRecords [pingRecord, doneRecord]] =
      { content := noResponseText, isError := true } :=
  empty_stream_fallback jsonParse [encodeRecords [pingRecord, doneRecord]] (by
    intro chunk hchunk line hline parsed hparse
    have hc : chunk = encodeRecords [pingRecord, doneRecord] := by simpa using hchunk
    subst hc
    have hl : chunkLines (encodeRecords [pingRecord, doneRecord]) = [pingRecord, doneRecord] := by
      decide
    rw [hl] at hline
    have hping : jsonParse (pingRecord.drop 6) = some pingFrame := by decide
    have hdone : jsonParse (doneRecord.drop 6) = some doneFrame := by decide
    rcases List.mem_cons.mp hline with h | h
    · subst h
      rw [hping] at hparse
      cases hparse
      exact Or.inr (by decide)
    · rw [List.mem_singleton] at h
      subst h
      rw [hdone] at hparse
      cases hparse
      exact Or.inl (by decide))

/-- C10 (counterexample): an error frame whose error text is empty gives the
content "Error: Unknown streaming error", not "Error: " followed by the
(empty) error text. -/
theorem empty_error_text_replaced :
    handleStreamingResponse jsonParse [encodeRecords [emptyErrorRecord]] =
        { content := "Error: Unknown streaming error".toList, isError := true } ∧
      handleStreamingResponse jsonParse [encodeRecords [emptyErrorRecord]] ≠
        { content := "Error: ".toList ++ "".toList, isError := true } := by
  decide

/-- Witness of C10 (amended): content "Hi", error "boom", content " there"
give exactly "Error: boom" with the error flag set. -/
theorem error_frame_verbatim_witness :
    handleStreamingResponse jsonParse [encodeRecords [hiRecord, boomRecord, thereRecord]] =
      { content := "Error: boom".toList, isError := true } :=
  error_frame_verbatim jsonParse [encodeRecords [hiRecord, boomRecord, thereRecord]]
    [hiRecord] boomRecord [thereRecord] boomFrame "boom".toList
    (by decide) (by decide) (by decide) (by decide) (by decide)

/-! ### Cuts between records -/

/-- A trailing character that satisfies `p` is removed by `trimEndBy p`. -/
theorem trimEndBy_append_singleton (p : Char → Bool) (x : Char) (hx : p x = true)
    (t : List Char) : trimEndBy p (t ++ [x]) = trimEndBy p t := by
  induction t with
  | nil => simp [trimEndBy, hx]
  | cons c t ih =>
    show trimEndBy p (c :: (t ++ [x])) = trimEndBy p (c :: t)
    rw [trimEndBy, trimEndBy, ih]

/-- Trimming both ends is not affected by a trailing character that
satisfies `p`. -/
theorem trimEndBy_dropWhile_append_singleton (p : Char → Bool) (x : Char) (hx : p x = true)
    (s : List Char) :
    trimEndBy p ((s ++ [x]).dropWhile p) = trimEndBy p (s.dropWhile p) := by
  induction s with
  | nil => simp [List.dropWhile, hx, trimEndBy]
  | cons c s ih =>
    cases hc : p c with
    | true => simpa [List.dropWhile, hc] using ih
    | false =>
      simp only [List.cons_append, List.dropWhile, hc]
      exact trimEndBy_append_singleton p x hx (c :: s)

/-- `trim` ignores a line feed in front. -/
theorem jsTrim_cons_newline (s : List Char) : jsTrim ('\n' :: s) = jsTrim s := by
  have h : isJsWhitespace '\n' = true := by decide
  simp [jsTrim, List.dropWhile, h]

/-- `trim` ignores a line feed at the end. -/
theorem jsTrim_append_newline (s : List Char) : jsTrim (s ++ ['\n']) = jsTrim s :=
  trimEndBy_dropWhile_append_singleton isJsWhitespace '\n' (by decide) s

/-- The filter ignores a line feed in front. -/
theorem isDataLine_cons_newline (s : List Char) : isDataLine ('\n' :: s) = isDataLine s := by
  simp only [isDataLine, jsTrim_cons_newline]

/-- The filter ignores a line feed at the end. -/
theorem isDataLine_append_newline (s : List Char) : isDataLine (s ++ ['\n']) = isDataLine s := by
  simp only [isDataLine, jsTrim_append_newline]

/-- The concrete parser ignores a space in front. -/
theorem jsonParse_cons_space (s : List Char) : jsonParse (' ' :: s) = jsonParse s := by
  have h : isJsonWs ' ' = true := by decide
  simp [jsonParse, List.dropWhile, h]

/-- The concrete parser ignores a line feed at the end. -/
theorem jsonParse_append_newline (s : List Char) : jsonParse (s ++ ['\n']) = jsonParse s := by
  have h : jsonTrimEnd ((s ++ ['\n']).dropWhile isJsonWs) = jsonTrimEnd (s.dropWhile isJsonWs) :=
    trimEndBy_dropWhile_append_singleton isJsonWs '\n' (by decide) s
  simp only [jsonParse, h]

/-- Every line is handled like itself. -/
theorem sameFrame_refl (parse : List Char → Option JVal) (a : List Char) :
    sameFrame parse a a :=
  ⟨rfl, fun _ => rfl⟩

/-- Being handled alike is transitive. -/
theorem sameFrame_trans (parse : List Char → Option JVal) (a b c : List Char)
    (hab : sameFrame parse a b) (hbc : sameFrame parse b c) : sameFrame parse a c :=
  ⟨hab.1.trans hbc.1, fun hc => (hab.2 (hbc.1.trans hc)).trans (hbc.2 hc)⟩

/-- A line feed in front of a line that begins with `data: ` when it passes
the filter: the parser gets the same payload after one space. -/
theorem sameFrame_lead (parse : List Char → Option JVal)
    (hspace : ∀ s, parse (' ' :: s) = parse s) (y : List Char)
    (hy : isDataLine y = true → "data: ".toList <+: y) :
    sameFrame parse ('\n' :: y) y := by
  refine ⟨isDataLine_cons_newline y, fun h => ?_⟩
  obtain ⟨q, hq⟩ := hy h
  rw [← hq]
  exact hspace q

/-- A line feed after a line that begins with `data: ` when it passes the
filter: the parser gets the same payload followed by a line feed. -/
theorem sameFrame_trail (parse : List Char → Option JVal)
    (hnl : ∀ s, parse (s ++ ['\n']) = parse s) (r : List Char)
    (hr : isDataLine r = true → "data: ".toList <+: r) :
    sameFrame parse (r ++ ['\n']) r := by
  refine ⟨isDataLine_append_newline r, fun h => ?_⟩
  obtain ⟨q, hq⟩ := hr h
  rw [← hq]
  exact hnl q

/-- Lines handled alike, filtered, give the same run of the `for` loop. -/
theorem processLines_sameFrame (parse : List Char → Option JVal) (ls1 ls2 : List (List Char))
    (h : List.Forall₂ (sameFrame parse) ls1 ls2) (st : StreamState) :
    processLines parse st (ls1.filter isDataLine) =
      processLines parse st (ls2.filter isDataLine) := by
  induction h generalizing st with
  | nil => rfl
  | @cons a b l1 l2 hab _ ih =>
    cases hb : isDataLine b with
    | false =>
      have ha : isDataLine a = false := hab.1.trans hb
      simp only [List.filter_cons, ha, hb, Bool.false_eq_true, if_false]
      exact ih st
    | true =>
      have ha : isDataLine a = true := hab.1.trans hb
      have hp := hab.2 hb
      simp only [List.filter_cons, ha, hb, if_true, processLines, handleLine, hp, ih]

/-- A single line followed by one line feed is one piece. -/
theorem splitBlankLine_line_newline (r : List Char) (hr : '\n' ∉ r) :
    splitBlankLine (r ++ ['\n']) = [r ++ ['\n']] := by
  induction r with
  | nil => rfl
  | cons c r1 ih =>
    have hc : c ≠ '\n' := fun h => hr (by simp [h])
    have hr1 : '\n' ∉ r1 := fun h => hr (List.mem_cons_of_mem _ h)
    rw [List.cons_append, splitBlankLine_cons c _ hc (by simp), ih hr1]
    rfl

/-- A line feed in front of a text that does not begin with a line feed
stays in the first piece. -/
theorem splitBlankLine_lead (t : List Char) (ht : t.head? ≠ some '\n') :
    splitBlankLine ('\n' :: t) = consHead '\n' (splitBlankLine t) := by
  cases t with
  | nil => rfl
  | cons d rest =>
    have hd : d ≠ '\n' := fun h => ht (by simp [h])
    simp [splitBlankLine, hd]

/-- A line feed in front of the first of several lines, all of which begin
with `data: ` when they pass the filter, does not change how they are
handled. -/
theorem forall₂_sameFrame_consHead (parse : List Char → Option JVal)
    (hspace : ∀ s, parse (' ' :: s) = parse s) (ls : List (List Char)) (hne : ls ≠ [])
    (hls : ∀ x ∈ ls, isDataLine x = true → "data: ".toList <+: x) :
    List.Forall₂ (sameFrame parse) (consHead '\n' ls) ls := by
  cases ls with
  | nil => exact absurd rfl hne
  | cons x xs =>
    exact .cons (sameFrame_lead parse hspace x (hls x (List.mem_cons_self _ _)))
      (List.forall₂_same.mpr fun y _ => sameFrame_refl parse y)

/-- Two relations composed along two lists. -/
theorem forall₂_sameFrame_trans (parse : List Char → Option JVal) (l1 l2 l3 : List (List Char))
    (h12 : List.Forall₂ (sameFrame parse) l1 l2) (h23 : List.Forall₂ (sameFrame parse) l2 l3) :
    List.Forall₂ (sameFrame parse) l1 l3 := by
  induction h12 generalizing l3 with
  | nil => cases h23; exact .nil
  | cons hab _ ih =>
    cases h23 with
    | cons hbc hrest => exact .cons (sameFrame_trans parse _ _ _ hab hbc) (ih _ hrest)

/-- The lines of a list of chunks are the pieces of all chunks that pass the
filter. -/
theorem flatMap_chunkLines (chunks : List (List Char)) :
    chunks.flatMap chunkLines = (chunks.flatMap splitBlankLine).filter isDataLine := by
  induction chunks with
  | nil => rfl
  | cons c cs ih => simp only [List.flatMap_cons, List.filter_append, ih, chunkLines]

/-- Lines handled alike, filtered, give the same parsed payloads. -/
theorem map_parse_sameFrame (parse : List Char → Option JVal) (ls1 ls2 : List (List Char))
    (h : List.Forall₂ (sameFrame parse) ls1 ls2) :
    (ls1.filter isDataLine).map (fun line => parse (line.drop 6)) =
      (ls2.filter isDataLine).map (fun line => parse (line.drop 6)) := by
  induction h with
  | nil => rfl
  | @cons a b l1 l2 hab _ ih =>
    cases hb : isDataLine b with
    | false =>
      have ha : isDataLine a = false := hab.1.trans hb
      simp only [List.filter_cons, ha, hb, Bool.false_eq_true, if_false]
      exact ih
    | true =>
      have ha : isDataLine a = true := hab.1.trans hb
      have hp := hab.2 hb
      simp only [List.filter_cons, ha, hb, if_true, List.map_cons, hp, ih]

/-- The tokens put together again give the text of the records. -/
theorem recordTokens_flatten (records : List (List Char)) :
    (recordTokens records).flatten = encodeRecords records := by
  induction records with
  | nil => rfl
  | cons r rs ih =>
    simp only [recordTokens, encodeRecords, List.flatMap_cons] at ih ⊢
    simp [ih]

/-- A text without line feed is one piece. -/
theorem splitBlankLine_line (r : List Char) (hr : '\n' ∉ r) : splitBlankLine r = [r] := by
  induction r with
  | nil => rfl
  | cons c r1 ih =>
    have hc : c ≠ '\n' := fun h => hr (by simp [h])
    have hr1 : '\n' ∉ r1 := fun h => hr (List.mem_cons_of_mem _ h)
    cases r1 with
    | nil => rfl
    | cons d r2 =>
      rw [splitBlankLine_cons c _ hc (by simp), ih hr1]
      rfl

/-- The pieces of a chunk that starts at the beginning of a record. -/
theorem chunk_at_record (parse : List Char → Option JVal)
    (hnl : ∀ s, parse (s ++ ['\n']) = parse s) (records : List (List Char))
    (hrecords : ∀ r ∈ records, isWellFormedRecord r) (g rest : List (List Char))
    (hg : g ++ rest = recordTokens records) :
    ∃ n recs1 recs2 ls, n ≤ 2 ∧ records = recs1 ++ recs2 ∧
      rest = pendingTokens n ++ recordTokens recs2 ∧
      List.Forall₂ (sameFrame parse) (splitBlankLine g.flatten) ls ∧
      ls.filter isDataLine = recs1.filter isDataLine ∧
      g.flatten.head? ≠ some '\n' ∧
      (∀ x ∈ splitBlankLine g.flatten, isDataLine x = true → "data: ".toList <+: x) := by
  have hempty : isDataLine [] = false := by decide
  induction records generalizing g with
  | nil =>
    have hg0 : g = [] := by
      cases g with
      | nil => rfl
      | cons x xs => simp [recordTokens] at hg
    subst hg0
    refine ⟨0, [], [], [[]], by omega, rfl, by simpa using hg, ?_, by simp [hempty], by simp, ?_⟩
    · exact List.forall₂_same.mpr fun y _ => sameFrame_refl parse y
    · intro x hx hd
      have : x = [] := by simpa [splitBlankLine] using hx
      subst this
      exact absurd hd (by decide)
  | cons r rs ih =>
    have hr : isWellFormedRecord r := hrecords r (List.mem_cons_self _ _)
    have hrs : ∀ x ∈ rs, isWellFormedRecord x := fun x hx => hrecords x (List.mem_cons_of_mem _ hx)
    have htok : recordTokens (r :: rs) = r :: ['\n'] :: ['\n'] :: recordTokens rs := by
      simp [recordTokens]
    have hrhead : r.head? ≠ some '\n' := by
      obtain ⟨h1, h2, _⟩ := hr
      cases r with
      | nil => exact absurd rfl h2
      | cons c r1 =>
        have hc : c ≠ '\n' := fun h => h1 (by simp [h])
        simpa using hc
    rw [htok] at hg
    cases g with
    | nil =>
      refine ⟨0, [], r :: rs, [[]], by omega, rfl, ?_, ?_, by simp [hempty], by simp, ?_⟩
      · simpa [pendingTokens, htok] using hg
      · exact List.forall₂_same.mpr fun y _ => sameFrame_refl parse y
      · intro x hx hd
        have : x = [] := by simpa [splitBlankLine] using hx
        subst this
        exact absurd hd (by decide)
    | cons x g1 =>
      rw [List.cons_append, List.cons.injEq] at hg
      obtain ⟨hx, hg1⟩ := hg
      subst hx
      have hflat : ∀ t : List (List Char), ((x :: t).flatten).head? ≠ some '\n' := by
        intro t
        cases x with
        | nil => exact absurd rfl hr.2.1
        | cons c r1 =>
          have hc : c ≠ '\n' := fun h => hr.1 (by simp [h])
          simpa using hc
      cases g1 with
      | nil =>
        refine ⟨2, [x], rs, [x], by omega, rfl, ?_, ?_, rfl, hflat _, ?_⟩
        · simpa [pendingTokens] using hg1
        · simp only [List.flatten_cons, List.flatten_nil, List.append_nil,
            splitBlankLine_line x hr.1]
          exact List.forall₂_same.mpr fun y _ => sameFrame_refl parse y
        · intro y hy hd
          simp only [List.flatten_cons, List.flatten_nil, List.append_nil,
            splitBlankLine_line x hr.1, List.mem_singleton] at hy
          subst hy
          exact hr.2.2 hd
      | cons y g2 =>
        rw [List.cons_append, List.cons.injEq] at hg1
        obtain ⟨hy, hg2⟩ := hg1
        subst hy
        cases g2 with
        | nil =>
          refine ⟨1, [x], rs, [x], by omega, rfl, ?_, ?_, rfl, hflat _, ?_⟩
          · simpa [pendingTokens] using hg2
          · have : [x, ['\n']].flatten = x ++ ['\n'] := by simp
            rw [this, splitBlankLine_line_newline x hr.1]
            exact .cons (sameFrame_trail parse hnl x hr.2.2) .nil
          · intro z hz hd
            have : [x, ['\n']].flatten = x ++ ['\n'] := by simp
            rw [this, splitBlankLine_line_newline x hr.1, List.mem_singleton] at hz
            subst hz
            rw [isDataLine_append_newline] at hd
            exact (hr.2.2 hd).trans (List.prefix_append x ['\n'])
        | cons z g3 =>
          rw [List.cons_append, List.cons.injEq] at hg2
          obtain ⟨hz, hg3⟩ := hg2
          subst hz
          obtain ⟨n, recs1, recs2, ls, hn, hrec, hrest, hrel, hfilter, _, hpieces⟩ := ih hrs g3 hg3
          have hsplit : splitBlankLine (x :: ['\n'] :: ['\n'] :: g3).flatten =
              x :: splitBlankLine g3.flatten := by
            have : (x :: ['\n'] :: ['\n'] :: g3).flatten = x ++ '\n' :: '\n' :: g3.flatten := by
              simp
            rw [this, splitBlankLine_record x _ hr.1]
          refine ⟨n, x :: recs1, recs2, x :: ls, hn, by simp [hrec], hrest, ?_, ?_, hflat _, ?_⟩
          · rw [hsplit]
            exact .cons (sameFrame_refl parse x) hrel
          · simp only [List.filter_cons, hfilter]
          · intro w hw hd
            rw [hsplit] at hw
            rcases List.mem_cons.mp hw with h | h
            · exact h ▸ hr.2.2 (h ▸ hd)
            · exact hpieces w h hd

/-- The split always gives at least one piece. -/
theorem splitBlankLine_ne_nil : ∀ t : List Char, splitBlankLine t ≠ []
  | [] => by simp [splitBlankLine]
  | [c] => by simp [splitBlankLine]
  | c :: d :: rest => by
    rw [splitBlankLine]
    split
    · simp
    · have := splitBlankLine_ne_nil (d :: rest)
      cases h : splitBlankLine (d :: rest) with
      | nil => exact absurd h this
      | cons p ps => simp [consHead]

/-- Only the empty list of records has no token. -/
theorem recordTokens_eq_nil (records : List (List Char)) (h : recordTokens records = []) :
    records = [] := by
  cases records with
  | nil => rfl
  | cons r rs => simp [recordTokens] at h

/-- The pieces of a chunk that ends at a token boundary, wherever it starts. -/
theorem chunk_pieces (parse : List Char → Option JVal)
    (hspace : ∀ s, parse (' ' :: s) = parse s) (hnl : ∀ s, parse (s ++ ['\n']) = parse s)
    (n : Nat) (hn : n ≤ 2) (records : List (List Char))
    (hrecords : ∀ r ∈ records, isWellFormedRecord r) (g rest : List (List Char))
    (hg : g ++ rest = pendingTokens n ++ recordTokens records) :
    ∃ n1 recs1 recs2 ls, n1 ≤ 2 ∧ records = recs1 ++ recs2 ∧
      rest = pendingTokens n1 ++ recordTokens recs2 ∧
      List.Forall₂ (sameFrame parse) (splitBlankLine g.flatten) ls ∧
      ls.filter isDataLine = recs1.filter isDataLine := by
  have hempty : isDataLine [] = false := by decide
  have hstay : g = [] → ∃ n1 recs1 recs2 ls, n1 ≤ 2 ∧ records = recs1 ++ recs2 ∧
      rest = pendingTokens n1 ++ recordTokens recs2 ∧
      List.Forall₂ (sameFrame parse) (splitBlankLine g.flatten) ls ∧
      ls.filter isDataLine = recs1.filter isDataLine := by
    intro h0
    subst h0
    refine ⟨n, [], records, [[]], hn, rfl, by simpa using hg, ?_, by simp [hempty]⟩
    exact List.forall₂_same.mpr fun y _ => sameFrame_refl parse y
  match n, hn with
  | 0, _ =>
    obtain ⟨n1, recs1, recs2, ls, h1, h2, h3, h4, h5, _, _⟩ :=
      chunk_at_record parse hnl records hrecords g rest (by simpa [pendingTokens] using hg)
    exact ⟨n1, recs1, recs2, ls, h1, h2, h3, h4, h5⟩
  | 1, _ =>
    cases g with
    | nil => exact hstay rfl
    | cons x g1 =>
      have hp : pendingTokens 1 = [['\n']] := rfl
      simp only [hp, List.cons_append, List.nil_append, List.cons.injEq] at hg
      obtain ⟨hx, hg1⟩ := hg
      subst hx
      obtain ⟨n1, recs1, recs2, ls, h1, h2, h3, h4, h5, h6, h7⟩ :=
        chunk_at_record parse hnl records hrecords g1 rest hg1
      refine ⟨n1, recs1, recs2, ls, h1, h2, h3, ?_, h5⟩
      have hsplit : splitBlankLine (['\n'] :: g1).flatten =
          consHead '\n' (splitBlankLine g1.flatten) := by
        have : (['\n'] :: g1).flatten = '\n' :: g1.flatten := by simp
        rw [this, splitBlankLine_lead _ h6]
      rw [hsplit]
      exact forall₂_sameFrame_trans parse _ _ _
        (forall₂_sameFrame_consHead parse hspace _ (splitBlankLine_ne_nil _) h7) h4
  | 2, _ =>
    cases g with
    | nil => exact hstay rfl
    | cons x g1 =>
      have hp : pendingTokens 2 = [['\n'], ['\n']] := rfl
      simp only [hp, List.cons_append, List.nil_append, List.cons.injEq] at hg
      obtain ⟨hx, hg1⟩ := hg
      subst hx
      cases g1 with
      | nil =>
        refine ⟨1, [], records, [['\n']], by omega, rfl, ?_, ?_, by decide⟩
        · simpa [pendingTokens] using hg1
        · exact List.forall₂_same.mpr fun y _ => sameFrame_refl parse y
      | cons y g2 =>
        simp only [List.cons_append, List.cons.injEq] at hg1
        obtain ⟨hy, hg2⟩ := hg1
        subst hy
        obtain ⟨n1, recs1, recs2, ls, h1, h2, h3, h4, h5, _, _⟩ :=
          chunk_at_record parse hnl records hrecords g2 rest (by simpa using hg2)
        refine ⟨n1, recs1, recs2, [] :: ls, h1, h2, h3, ?_, ?_⟩
        · have : (['\n'] :: ['\n'] :: g2).flatten = '\n' :: '\n' :: g2.flatten := by simp
          rw [this]
          have hs : splitBlankLine ('\n' :: '\n' :: g2.flatten) =
              [] :: splitBlankLine g2.flatten := by
            simp [splitBlankLine]
          rw [hs]
          exact .cons (sameFrame_refl parse []) h4
        · simp [List.filter_cons, hempty, h5]

/-- The pieces of all chunks of a grouping of the tokens are handled like a
list of lines whose data lines are those of the records. -/
theorem groups_pieces (parse : List Char → Option JVal)
    (hspace : ∀ s, parse (' ' :: s) = parse s) (hnl : ∀ s, parse (s ++ ['\n']) = parse s)
    (groups : List (List (List Char))) (n : Nat) (hn : n ≤ 2) (records : List (List Char))
    (hrecords : ∀ r ∈ records, isWellFormedRecord r)
    (hgroups : groups.flatten = pendingTokens n ++ recordTokens records) :
    ∃ ls, List.Forall₂ (sameFrame parse)
        ((groups.map List.flatten).flatMap splitBlankLine) ls ∧
      ls.filter isDataLine = records.filter isDataLine := by
  induction groups generalizing n records with
  | nil =>
    have h : recordTokens records = [] := by
      have := hgroups.symm
      simp only [List.flatten_nil, List.append_eq_nil] at this
      exact this.2
    rw [recordTokens_eq_nil records h]
    exact ⟨[], .nil, rfl⟩
  | cons g gs ih =>
    rw [List.flatten_cons] at hgroups
    obtain ⟨n1, recs1, recs2, ls1, h1, h2, h3, h4, h5⟩ :=
      chunk_pieces parse hspace hnl n hn records hrecords g gs.flatten hgroups
    have hrecs2 : ∀ r ∈ recs2, isWellFormedRecord r :=
      fun r hr => hrecords r (h2 ▸ List.mem_append_right _ hr)
    obtain ⟨ls2, k1, k2⟩ := ih n1 h1 recs2 hrecs2 h3
    refine ⟨ls1 ++ ls2, ?_, ?_⟩
    · simp only [List.map_cons, List.flatMap_cons]
      exact List.rel_append h4 k1
    · rw [List.filter_append, h5, k2, h2, List.filter_append]

/-- The result of the loop is determined by the frames of the stream. -/
theorem same_frames_same_state (parse : List Char → Option JVal) :
    ∀ (l1 l2 : List (List Char)) (st : StreamState),
      l1.map (fun line => parse (line.drop 6)) = l2.map (fun line => parse (line.drop 6)) →
      processLines parse st l1 = processLines parse st l2
  | [], [], _, _ => rfl
  | [], _ :: _, _, h => by simp at h
  | _ :: _, [], _, h => by simp at h
  | a :: l1, b :: l2, st, h => by
    simp only [List.map_cons, List.cons.injEq] at h
    simp only [processLines, handleLine, h.1]
    split
    · rfl
    · exact same_frames_same_state parse l1 l2 _ h.2

/-- Streams with the same frames give the same final message. -/
theorem same_frames_same_response (parse : List Char → Option JVal)
    (chunks1 chunks2 : List (List Char))
    (h : streamFrames parse chunks1 = streamFrames parse chunks2) :
    handleStreamingResponse parse chunks1 = handleStreamingResponse parse chunks2 := by
  rw [handleStreamingResponse_eq, handleStreamingResponse_eq,
    same_frames_same_state parse _ _ _ h]

/-- C2 (amended): for every event-stream text made of well-formed records,
each followed by the blank-line separator, and for every cutting of the text
into consecutive chunks with no cut inside a record, the chunks processed in
order decode the same sequence of frames and give the same final content and
error flag as the whole text processed as one chunk.  A cutting with no cut
inside a record is a grouping of the tokens of the text (the records and the
single line feeds of the separators) into consecutive groups, each group
being one chunk: a chunk may end between a record and its separator, between
the two line feeds of a separator or after a separator, and a chunk may be
empty.  The parser is any function that ignores one space in front of its
input and one line feed after it, as `JSON.parse` does. -/
theorem chunks_between_records (parse : List Char → Option JVal)
    (hspace : ∀ s, parse (' ' :: s) = parse s) (hnl : ∀ s, parse (s ++ ['\n']) = parse s)
    (records : List (List Char)) (hrecords : ∀ r ∈ records, isWellFormedRecord r)
    (groups : List (List (List Char))) (hgroups : groups.flatten = recordTokens records) :
    (groups.map List.flatten).flatten = encodeRecords records ∧
      streamFrames parse (groups.map List.flatten) =
        streamFrames parse [encodeRecords records] ∧
      handleStreamingResponse parse (groups.map List.flatten) =
        handleStreamingResponse parse [encodeRecords records] := by
  obtain ⟨ls, h1, h2⟩ := groups_pieces parse hspace hnl groups 0 (by omega) records hrecords
    (by simpa [pendingTokens] using hgroups)
  have hlines : ∀ r ∈ records, '\n' ∉ r := fun r hr => (hrecords r hr).1
  have hframes : streamFrames parse (groups.map List.flatten) =
      streamFrames parse [encodeRecords records] := by
    rw [streamFrames, streamFrames, flatMap_chunkLines, map_parse_sameFrame parse _ ls h1, h2]
    simp [chunkLines_encodeRecords _ hlines]
  refine ⟨?_, hframes, same_frames_same_response parse _ _ hframes⟩
  rw [← recordTokens_flatten, ← hgroups]
  simp [List.flatten_flatten]

/-- Witness of C2 (amended): three records cut between the first record and
its separator, twice inside that separator, inside the second separator and
at the end of the text. -/
theorem chunks_between_records_witness :
    streamFrames jsonParse
        ["data: \x7b\"type\":\"content\",\"data\":\"Hi\"\x7d".toList, "\n".toList, [],
          "\ndata: \x7b\"type\":\"content\",\"data\":\" there\"\x7d\n".toList,
          "\n".toList ++ doneRecord ++ "\n\n".toList] =
        [some hiFrame, some thereFrame, some doneFrame] ∧
      handleStreamingResponse jsonParse
        ["data: \x7b\"type\":\"content\",\"data\":\"Hi\"\x7d".toList, "\n".toList, [],
          "\ndata: \x7b\"type\":\"content\",\"data\":\" there\"\x7d\n".toList,
          "\n".toList ++ doneRecord ++ "\n\n".toList] =
        handleStreamingResponse jsonParse [encodeRecords [hiRecord, thereRecord, doneRecord]] :=
  have h := chunks_between_records jsonParse jsonParse_cons_space jsonParse_append_newline
    [hiRecord, thereRecord, doneRecord] (by decide)
    [[hiRecord], [['\n']], [], [['\n'], thereRecord, ['\n']], [['\n'], doneRecord, ['\n'], ['\n']]]
    (by decide)
  ⟨h.2.1, h.2.2⟩

/-! ### Malformed records -/

/-- A line whose payload does not parse is passed over by the `for` loop. -/
theorem processLines_skip (parse : List Char → Option JVal) (bad : List Char)
    (hbad : parse (bad.drop 6) = none) (pre post : List (List Char)) (st : StreamState) :
    processLines parse st (pre ++ bad :: post) = processLines parse st (pre ++ post) := by
  induction pre generalizing st with
  | nil => simp [processLines, handleLine, hbad]
  | cons line rest ih =>
    rw [List.cons_append, List.cons_append, processLines, processLines, ih]

/-- The payload of a record made by `dataRecord` is what follows `data: `. -/
theorem dataRecord_drop (payload : List Char) : (dataRecord payload).drop 6 = payload := rfl

/-- C11: for every list of single-line records grouped into chunks of whole
records, inserting at any position a single-line record `data: ` followed by
a payload that does not parse leaves unchanged the frames decoded and the
final content and error flag; decoding goes on after the inserted record. -/
theorem malformed_record_skipped (parse : List Char → Option JVal) (payload : List Char)
    (pre post : List (List Char)) (groups groups1 : List (List (List Char)))
    (hpayload : parse payload = none) (hline : '\n' ∉ payload)
    (hrecords : ∀ r ∈ pre ++ post, '\n' ∉ r)
    (hwith : groups.flatten = pre ++ dataRecord payload :: post)
    (hwithout : groups1.flatten = pre ++ post) :
    (streamFrames parse (groups.map encodeRecords)).reduceOption =
        (streamFrames parse (groups1.map encodeRecords)).reduceOption ∧
      handleStreamingResponse parse (groups.map encodeRecords) =
        handleStreamingResponse parse (groups1.map encodeRecords) := by
  have hbadline : '\n' ∉ dataRecord payload := by
    intro h
    rcases List.mem_append.mp h with h1 | h1
    · exact absurd h1 (by decide)
    · exact hline h1
  have hall : ∀ r ∈ pre ++ dataRecord payload :: post, '\n' ∉ r := by
    intro r hr
    rcases List.mem_append.mp hr with h | h
    · exact hrecords r (List.mem_append_left _ h)
    · rcases List.mem_cons.mp h with h | h
      · exact h ▸ hbadline
      · exact hrecords r (List.mem_append_right _ h)
  have h1 : ∀ g ∈ groups, ∀ r ∈ g, '\n' ∉ r := fun g hg r hr =>
    hall r (hwith ▸ List.mem_flatten.mpr ⟨g, hg, hr⟩)
  have h2 : ∀ g ∈ groups1, ∀ r ∈ g, '\n' ∉ r := fun g hg r hr =>
    hrecords r (hwithout ▸ List.mem_flatten.mpr ⟨g, hg, hr⟩)
  have hbad : parse ((dataRecord payload).drop 6) = none := by
    rw [dataRecord_drop]
    exact hpayload
  rw [handleStreamingResponse_eq, handleStreamingResponse_eq]
  simp only [streamFrames]
  rw [flatMap_chunkLines_encodeRecords groups h1, flatMap_chunkLines_encodeRecords groups1 h2,
    hwith, hwithout]
  cases hdata : isDataLine (dataRecord payload) with
  | false =>
    simp only [List.filter_append, List.filter_cons, hdata, Bool.false_eq_true, if_false,
      and_self]
  | true =>
    simp only [List.filter_append, List.filter_cons, hdata, if_true,
      processLines_skip parse _ hbad, List.map_append, List.map_cons, hbad,
      List.reduceOption_append, List.reduceOption_cons_of_none, and_self]

/-- Witness of C11: a record with the payload `{oops` between the records of
"Hi" and " there"; the result is that of the stream without it. -/
theorem malformed_record_skipped_witness :
    (streamFrames jsonParse
        ([[hiRecord, dataRecord "\x7boops".toList], [thereRecord, doneRecord]].map
          encodeRecords)).reduceOption =
        (streamFrames jsonParse
          ([[hiRecord], [thereRecord, doneRecord]].map encodeRecords)).reduceOption ∧
      handleStreamingResponse jsonParse
        ([[hiRecord, dataRecord "\x7boops".toList], [thereRecord, doneRecord]].map
          encodeRecords) =
        handleStreamingResponse jsonParse
          ([[hiRecord], [thereRecord, doneRecord]].map encodeRecords) :=
  malformed_record_skipped jsonParse "\x7boops".toList [hiRecord] [thereRecord, doneRecord]
    [[hiRecord, dataRecord "\x7boops".toList], [thereRecord, doneRecord]]
    [[hiRecord], [thereRecord, doneRecord]]
    (by decide) (by decide) (by decide) (by decide) (by decide)

/-! ### Degraded tool-schema resolution -/

/-- The chat request is sent for every non-blank message, whatever the
server then answers. -/
theorem sendChat_mem (parse : List Char → Option JVal) (s : Session) (message : List Char)
    (reply : ChatReply) (hmessage : jsTrim message ≠ []) :
    SubmitEffect.sendChat (chatPayload parse s message) ∈
      handleChatSubmit parse s message reply := by
  simp [handleChatSubmit, hmessage]

/-- C12: when the schema text of the selected configuration does not parse,
the resolution gives `null` (the `catch` of line 546 absorbs the exception)
and the chat request is still sent, with `mcp_enabled` true and `mcp_schema`
null. -/
theorem unparseable_schema_still_submitted (parse : List Char → Option JVal) (s : Session)
    (message : List Char) (reply : ChatReply) (g : GptData) (sel : List Char) (cfg : McpConfig)
    (hmessage : jsTrim message ≠ [])
    (hgpt : s.gptData = some g) (henabled : g.mcpEnabled = true)
    (hselected : s.selectedMcpServerName = some sel) (hsel : sel ≠ [])
    (hfound : s.savedMcpConfigs.find? (fun c => c.id = sel) = some cfg)
    (hparse : parse cfg.schema = none) :
    schemaOfConfig parse cfg = none ∧
      (chatPayload parse s message).mcp_schema = none ∧
      (chatPayload parse s message).mcp_enabled = true ∧
      SubmitEffect.sendChat (chatPayload parse s message) ∈
        handleChatSubmit parse s message reply := by
  have hschema : schemaOfConfig parse cfg = none := by
    simp only [schemaOfConfig, hparse]
  refine ⟨hschema, ?_, ?_, sendChat_mem parse s message reply hmessage⟩
  · simp [chatPayload, resolveMcp, hgpt, henabled, hselected, hsel, hfound, hschema]
  · simp [chatPayload, resolveMcp, hgpt, henabled, hselected, hsel, hfound]

/-- Witness of C12: the configuration `cfg3`, whose schema is not JSON, is
selected; the request goes out without schema. -/
theorem unparseable_schema_still_submitted_witness :
    schemaOfConfig jsonParse brokenConfig = none ∧
      (chatPayload jsonParse (mcpSession "cfg3".toList) "hello".toList).mcp_schema = none ∧
      (chatPayload jsonParse (mcpSession "cfg3".toList) "hello".toList).mcp_enabled = true ∧
      SubmitEffect.sendChat (chatPayload jsonParse (mcpSession "cfg3".toList) "hello".toList) ∈
        handleChatSubmit jsonParse (mcpSession "cfg3".toList) "hello".toList .noBody :=
  unparseable_schema_still_submitted jsonParse (mcpSession "cfg3".toList) "hello".toList .noBody
    { demoGpt with mcpEnabled := true } "cfg3".toList brokenConfig
    (by decide) rfl rfl rfl (by decide) (by decide) (by decide)

/-- C13: when no stored configuration has the selected id, the schema of the
request is `null`. -/
theorem unknown_config_no_schema (parse : List Char → Option JVal) (mcpEnabled : Bool)
    (sel : List Char) (saved : List McpConfig) (habsent : ∀ c ∈ saved, c.id ≠ sel) :
    (resolveMcp parse mcpEnabled (some sel) saved).2 = none := by
  have hfind : saved.find? (fun c => c.id = sel) = none := by
    rw [List.find?_eq_none]
    intro c hc
    simpa using habsent c hc
  simp only [resolveMcp, hfind]
  split <;> rfl

/-- Witness of C13: the id `nope` is not among the stored configurations. -/
theorem unknown_config_no_schema_witness :
    (resolveMcp jsonParse true (some "nope".toList)
      [alphaBetaConfig, brokenConfig, emptyServersConfig, singleServerConfig]).2 = none :=
  unknown_config_no_schema jsonParse true "nope".toList
    [alphaBetaConfig, brokenConfig, emptyServersConfig, singleServerConfig] (by decide)

/-- C14: when the parsed document has an `mcpServers` container without
entries (an empty object, or an empty array), the resolution gives `null`:
the `Error` thrown at line 536 is absorbed by the `catch` of line 546, and
the request carries `mcp_enabled` true and `mcp_schema` null. -/
theorem empty_container_no_schema (parse : List Char → Option JVal) (cfg : McpConfig)
    (top : JMembers) (container : JVal) (saved : List McpConfig)
    (hparse : parse cfg.schema = some (.obj top))
    (hservers : top.get? "mcpServers".toList = some container)
    (hempty : container = .obj .nil ∨ container = .arr .nil)
    (hid : cfg.id ≠ [])
    (hfound : saved.find? (fun c => c.id = cfg.id) = some cfg) :
    schemaOfConfig parse cfg = none ∧
      resolveMcp parse true (some cfg.id) saved = (true, none) := by
  have hschema : schemaOfConfig parse cfg = none := by
    rcases hempty with h | h <;> subst h <;>
      simp only [schemaOfConfig, hparse, JVal.getProp, hservers, jsTruthy, isTypeofObject,
        Bool.and_self, if_true, objectKeys, JMembers.keys, JList.toList, List.length_nil,
        List.range_zero, List.map_nil]
  refine ⟨hschema, ?_⟩
  simp [resolveMcp, hid, hfound, hschema]

/-- Witness of C14: the document `{"mcpServers":{}}`. -/
theorem empty_container_no_schema_witness :
    schemaOfConfig jsonParse emptyServersConfig = none ∧
      resolveMcp jsonParse true (some emptyServersConfig.id)
        [alphaBetaConfig, brokenConfig, emptyServersConfig, singleServerConfig] = (true, none) :=
  empty_container_no_schema jsonParse emptyServersConfig
    (.cons "mcpServers".toList (.obj .nil) .nil) (.obj .nil)
    [alphaBetaConfig, brokenConfig, emptyServersConfig, singleServerConfig]
    (by decide) (by decide) (Or.inl rfl) (by decide) (by decide)

/-- Replacing the value of a property that exists gives it the new value. -/
theorem JMembers.get?_replace_self (k : List Char) (v : JVal) :
    ∀ ms : JMembers, ms.get? k ≠ none → (ms.replace k v).get? k = some v
  | .nil, h => absurd rfl h
  | .cons k1 v1 rest, h => by
    by_cases hk : k1 = k
    · simp [JMembers.replace, JMembers.get?, hk]
    · simp only [JMembers.get?, hk, if_false] at h
      simp only [JMembers.replace, JMembers.get?, hk, if_false]
      exact JMembers.get?_replace_self k v rest h

/-- Replacing the value of a property leaves every other property as it is. -/
theorem JMembers.get?_replace_ne (k k1 : List Char) (v : JVal) (h : k1 ≠ k) :
    ∀ ms : JMembers, (ms.replace k v).get? k1 = ms.get? k1
  | .nil => rfl
  | .cons k2 v2 rest => by
    by_cases hk : k2 = k
    · subst hk
      have hne : ¬ k2 = k1 := fun e => h e.symm
      simp [JMembers.replace, JMembers.get?, hne]
    · by_cases hk1 : k2 = k1
      · subst hk1
        simp [JMembers.replace, JMembers.get?, hk]
      · simp only [JMembers.replace, JMembers.get?, hk, hk1, if_false]
        exact JMembers.get?_replace_ne k k1 v h rest

/-- Replacing the value of a property keeps the names and their order. -/
theorem JMembers.keys_replace (k : List Char) (v : JVal) :
    ∀ ms : JMembers, (ms.replace k v).keys = ms.keys
  | .nil => rfl
  | .cons k1 v1 rest => by
    by_cases hk : k1 = k
    · simp [JMembers.replace, JMembers.keys, hk]
    · simp [JMembers.replace, JMembers.keys, hk, JMembers.keys_replace k v rest]

/-- A property appended to an object that lacks it has the given value. -/
theorem JMembers.get?_snoc_self (k : List Char) (v : JVal) :
    ∀ ms : JMembers, ms.get? k = none → (ms.snoc k v).get? k = some v
  | .nil, _ => by simp [JMembers.snoc, JMembers.get?]
  | .cons k1 v1 rest, h => by
    by_cases hk : k1 = k
    · simp [JMembers.get?, hk] at h
    · simp only [JMembers.get?, hk, if_false] at h
      simp only [JMembers.snoc, JMembers.get?, hk, if_false]
      exact JMembers.get?_snoc_self k v rest h

/-- Appending a property leaves every other property as it is. -/
theorem JMembers.get?_snoc_ne (k k1 : List Char) (v : JVal) (h : k1 ≠ k) :
    ∀ ms : JMembers, (ms.snoc k v).get? k1 = ms.get? k1
  | .nil => by
    have hne : ¬ k = k1 := fun e => h e.symm
    simp [JMembers.snoc, JMembers.get?, hne]
  | .cons k2 v2 rest => by
    by_cases hk1 : k2 = k1
    · simp [JMembers.snoc, JMembers.get?, hk1]
    · simp only [JMembers.snoc, JMembers.get?, hk1, if_false]
      exact JMembers.get?_snoc_ne k k1 v h rest

/-- Appending a property puts its name after all others. -/
theorem JMembers.keys_snoc (k : List Char) (v : JVal) :
    ∀ ms : JMembers, (ms.snoc k v).keys = ms.keys ++ [k]
  | .nil => rfl
  | .cons k1 v1 rest => by simp [JMembers.snoc, JMembers.keys, JMembers.keys_snoc k v rest]

/-- Setting `name` on an object: `name` has the new value, every other
property keeps its value, and the names keep their order, `name` being
added last if it was not there. -/
theorem JMembers.set_name (v : JVal) (ms : JMembers) :
    (ms.set "name".toList v).get? "name".toList = some v ∧
      (∀ k, k ≠ "name".toList → (ms.set "name".toList v).get? k = ms.get? k) ∧
      ((ms.set "name".toList v).keys = ms.keys ∨
        (ms.set "name".toList v).keys = ms.keys ++ ["name".toList]) := by
  have hindex : arrayIndex? "name".toList = none := by decide
  unfold JMembers.set
  cases hget : ms.get? "name".toList with
  | some w =>
    simp only []
    refine ⟨JMembers.get?_replace_self _ v ms (by rw [hget]; exact Option.some_ne_none w), ?_,
      Or.inl ?_⟩
    · intro k hk
      exact JMembers.get?_replace_ne _ k v hk ms
    · exact JMembers.keys_replace _ v ms
  | none =>
    simp only [hindex]
    refine ⟨JMembers.get?_snoc_self _ v ms hget, ?_, Or.inr ?_⟩
    · intro k hk
      exact JMembers.get?_snoc_ne _ k v hk ms
    · exact JMembers.keys_snoc _ v ms

/-- C15: for every configuration whose schema parses to an object without
an `mcpServers` property, the resolution returns the serialization of that
object with `name` set to the configuration's display name; every other
property keeps its value and the properties keep their order (`name` is
added last when the object had none). -/
theorem single_server_named (parse : List Char → Option JVal) (cfg : McpConfig)
    (top : JMembers)
    (hparse : parse cfg.schema = some (.obj top))
    (hsingle : top.get? "mcpServers".toList = none) :
    schemaOfConfig parse cfg =
        some (JVal.stringify (.obj (top.set "name".toList (.str cfg.name)))) ∧
      (top.set "name".toList (.str cfg.name)).get? "name".toList = some (.str cfg.name) ∧
      (∀ k, k ≠ "name".toList →
        (top.set "name".toList (.str cfg.name)).get? k = top.get? k) ∧
      ((top.set "name".toList (.str cfg.name)).keys = top.keys ∨
        (top.set "name".toList (.str cfg.name)).keys = top.keys ++ ["name".toList]) := by
  refine ⟨?_, JMembers.set_name (.str cfg.name) top⟩
  simp only [schemaOfConfig, hparse, JVal.getProp, hsingle, assignName, Option.map_some']

/-- Witness of C15: the document `{"command":"uvx","name":"old","args":["a"]}`
of the configuration named "My server". -/
theorem single_server_named_witness :
    schemaOfConfig jsonParse singleServerConfig =
      some "\x7b\"command\":\"uvx\",\"name\":\"My server\",\"args\":[\"a\"]\x7d".toList :=
  (single_server_named jsonParse singleServerConfig
    (.cons "command".toList (.str "uvx".toList)
      (.cons "name".toList (.str "old".toList)
        (.cons "args".toList (.arr (.cons (.str "a".toList) .nil)) .nil)))
    (by decide) (by decide)).1

/-! ### Order of the conversation memory -/

/-- Keeping the last `n + 1` elements keeps the last element. -/
theorem getLast?_sliceLast {α : Type} (n : Nat) (l : List α) :
    (sliceLast (n + 1) l).getLast? = l.getLast? := by
  rcases List.eq_nil_or_concat l with h | ⟨init, x, h⟩
  · subst h
    simp [sliceLast]
  · rw [List.concat_eq_append] at h
    subst h
    have hle : (init ++ [x]).length - (n + 1) ≤ init.length := by
      simp only [List.length_append, List.length_singleton]
      omega
    rw [sliceLast, List.drop_append_of_le_length hle]
    simp

/-- The last elements of a list are a suffix of it. -/
theorem sliceLast_suffix {α : Type} (n : Nat) (l : List α) : sliceLast n l <:+ l :=
  List.drop_suffix _ l

/-- One event keeps the memory a suffix of the appended turns, with the same
last turn. -/
theorem memoryStep_suffix (mem log : List Turn) (e : MemoryEvent)
    (hsuffix : mem <:+ log) (hlast : mem.getLast? = log.getLast?) :
    memoryStep mem e <:+ appendedStep log e ∧
      (memoryStep mem e).getLast? = (appendedStep log e).getLast? := by
  cases e with
  | submit message now =>
    by_cases hblank : jsTrim message = []
    · simp only [memoryStep, submitMemory, appendedStep, hblank, if_true]
      exact ⟨hsuffix, hlast⟩
    · simp only [memoryStep, submitMemory, appendedStep, hblank, if_false]
      refine ⟨(sliceLast_suffix 10 _).trans ?_, ?_⟩
      · obtain ⟨t, ht⟩ := hsuffix
        exact ⟨t, by rw [← ht, List.append_assoc]⟩
      · rw [getLast?_sliceLast 9]
        simp
  | finalize content now =>
    simp only [memoryStep, finalizeMemory, appendedStep]
    refine ⟨?_, by simp⟩
    obtain ⟨t, ht⟩ := hsuffix
    exact ⟨t, by rw [← ht, List.append_assoc]⟩
  | loadHistory messages createdAt =>
    simp only [memoryStep, historyMemory, appendedStep]
    refine ⟨(sliceLast_suffix 10 messages).map _, ?_⟩
    rw [List.getLast?_map, List.getLast?_map, getLast?_sliceLast 9]
  | newChat =>
    simp only [memoryStep, appendedStep]
    exact ⟨List.suffix_refl _, trivial⟩

/-- A sequence of events keeps the memory a suffix of the appended turns,
with the same last turn. -/
theorem runMemory_suffix (events : List MemoryEvent) (mem log : List Turn)
    (hsuffix : mem <:+ log) (hlast : mem.getLast? = log.getLast?) :
    runMemory events mem <:+ appendedTurns events log ∧
      (runMemory events mem).getLast? = (appendedTurns events log).getLast? := by
  induction events generalizing mem log with
  | nil => exact ⟨hsuffix, hlast⟩
  | cons e es ih =>
    obtain ⟨h1, h2⟩ := memoryStep_suffix mem log e hsuffix hlast
    exact ih _ _ h1 h2

/-- C16: after every sequence of submissions, finalizations, history loads
and new-chat resets, starting from the empty memory, the memory is a
contiguous suffix of the sequence of turns appended since the last reset, in
the same order, and the turn appended last is the last turn of the memory. -/
theorem memory_is_suffix_of_appended (events : List MemoryEvent) :
    runMemory events [] <:+ appendedTurns events [] ∧
      (runMemory events []).getLast? = (appendedTurns events []).getLast? :=
  runMemory_suffix events [] [] (List.suffix_refl _) rfl

/-! ### History persistence -/

/-- The request of `saveMessageToHistory` when the identity and the
assistant are resolved and the message is not blank. -/
theorem historyRequest_resolved (s : Session) (g : GptData) (message role : List Char)
    (huser : s.userId ≠ []) (hgpt : s.gptData = some g) (hmessage : jsTrim message ≠ []) :
    historyRequest s message role = some (historyPayload s.userId g message role) := by
  have hne : message ≠ [] := fun h => hmessage (by rw [h]; rfl)
  simp only [historyRequest, hgpt, huser, hne, hmessage, false_or, if_false]

/-- No request is issued for a blank message. -/
theorem historyRequest_blank (s : Session) (message role : List Char)
    (hmessage : jsTrim message = []) : historyRequest s message role = none := by
  unfold historyRequest
  cases s.gptData with
  | none => rfl
  | some g => simp [hmessage]

/-- A request is issued only if the identity and the assistant are resolved
and the message is not blank. -/
theorem historyRequest_some (s : Session) (message role : List Char) (p : HistoryPayload)
    (h : historyRequest s message role = some p) :
    s.userId ≠ [] ∧ s.gptData ≠ none ∧ jsTrim message ≠ [] := by
  unfold historyRequest at h
  cases hg : s.gptData with
  | none => simp [hg] at h
  | some g =>
    simp only [hg] at h
    by_cases hguard : s.userId = [] ∨ message = [] ∨ jsTrim message = []
    · rw [if_pos hguard] at h
      exact absurd h (by simp)
    · exact ⟨fun e => hguard (Or.inl e), by simp, fun e => hguard (Or.inr (Or.inr e))⟩

/-- C19: for every session state, message, role and outcome of the request,
`saveMessageToHistory` returns, having issued at most one request; and it
returns `null` unless the identity and the assistant are resolved, the
message is not blank, and the one request issued was answered, in which case
it returns the data of the answer. -/
theorem saveMessageToHistory_single_attempt (s : Session) (message role : List Char)
    (reply : Reply) :
    (saveMessageToHistory s message role reply).requests.length ≤ 1 ∧
      ((saveMessageToHistory s message role reply).result = .null ∨
        (s.userId ≠ [] ∧ s.gptData ≠ none ∧ jsTrim message ≠ [] ∧
          ∃ data, reply = .response data ∧
            (saveMessageToHistory s message role reply).result = .data data ∧
            (saveMessageToHistory s message role reply).requests.length = 1)) := by
  cases hreq : historyRequest s message role with
  | none =>
    have h : saveMessageToHistory s message role reply = { requests := [], result := .null } := by
      simp only [saveMessageToHistory, hreq]
    rw [h]
    exact ⟨Nat.zero_le _, Or.inl rfl⟩
  | some p =>
    obtain ⟨h1, h2, h3⟩ := historyRequest_some s message role p hreq
    cases reply with
    | rejected =>
      have h : saveMessageToHistory s message role .rejected =
          { requests := [p], result := .null } := by
        simp only [saveMessageToHistory, hreq]
      rw [h]
      exact ⟨Nat.le_refl _, Or.inl rfl⟩
    | response data =>
      have h : saveMessageToHistory s message role (.response data) =
          { requests := [p], result := .data data } := by
        simp only [saveMessageToHistory, hreq]
      rw [h]
      exact ⟨Nat.le_refl _, Or.inr ⟨h1, h2, h3, data, rfl, rfl, rfl⟩⟩

/-! ### The outbound request -/

/-- C20: for every session state and every non-blank message the chat
request is sent, and the roles and contents of its `history`, in order, are
those of the last 10 of the memory entries followed by the new user turn; it
has at most 10 entries and its last entry is the submitted message with role
`user`. -/
theorem history_field_last_ten (parse : List Char → Option JVal) (s : Session)
    (message : List Char) (reply : ChatReply) (hmessage : jsTrim message ≠ []) :
    SubmitEffect.sendChat (chatPayload parse s message) ∈
        handleChatSubmit parse s message reply ∧
      (chatPayload parse s message).history.map (fun e => (e.role, e.content)) =
        sliceLast 10 (s.conversationMemory.map (fun t => (t.role, t.content)) ++
          [("user".toList, message)]) ∧
      (chatPayload parse s message).history.length ≤ 10 ∧
      (chatPayload parse s message).history.getLast? =
        some { role := "user".toList, content := message } := by
  refine ⟨sendChat_mem parse s message reply hmessage, ?_, ?_, ?_⟩
  · simp only [chatPayload, recentHistory, sliceLast, List.map_drop, List.map_append,
      List.map_map, List.length_append, List.length_map, List.map_cons, List.map_nil,
      entryOfTurn]
    rfl
  · simp only [chatPayload, recentHistory, sliceLast, List.length_drop]
    omega
  · simp only [chatPayload, recentHistory]
    rw [getLast?_sliceLast 9]
    simp

/-- Witness of C20: the message "hello" in a session whose memory has twelve
turns: the history is the turns 3 to 11 followed by the new user turn. -/
theorem history_field_last_ten_witness :
    (chatPayload jsonParse longSession "hello".toList).history.map
        (fun e => (e.role, e.content)) =
      [("assistant".toList, "turn 3".toList), ("user".toList, "turn 4".toList),
        ("assistant".toList, "turn 5".toList), ("user".toList, "turn 6".toList),
        ("assistant".toList, "turn 7".toList), ("user".toList, "turn 8".toList),
        ("assistant".toList, "turn 9".toList), ("user".toList, "turn 10".toList),
        ("assistant".toList, "turn 11".toList), ("user".toList, "hello".toList)] :=
  (history_field_last_ten jsonParse longSession "hello".toList .noBody (by decide)).2.1

/-! ### History of a submitted turn -/

/-- The steps of a submission answered by a stream, when the identity and
the assistant are resolved and the final content is not blank: the user turn
is saved, the request is sent, the final message is set, and then its
content is saved, trimmed. -/
theorem handleChatSubmit_body (parse : List Char → Option JVal) (s : Session) (g : GptData)
    (message : List Char) (chunks : List (List Char)) (ending : StreamEnd)
    (huser : s.userId ≠ []) (hgpt : s.gptData = some g) (hmessage : jsTrim message ≠ [])
    (hcontent : jsTrim (streamOutcome parse chunks ending).content ≠ []) :
    handleChatSubmit parse s message (.body chunks ending) =
      [.saveHistory (historyPayload s.userId g message "user".toList),
       .sendChat (chatPayload parse s message),
       .finalMessage (streamOutcome parse chunks ending),
       .saveHistory (historyPayload s.userId g (streamOutcome parse chunks ending).content
         "assistant".toList)] := by
  simp only [handleChatSubmit, hmessage, if_false,
    historyRequest_resolved s g message _ huser hgpt hmessage,
    historyRequest_resolved s g _ _ huser hgpt hcontent, Option.toList, List.map_cons,
    List.map_nil, List.cons_append, List.nil_append]

/-- A text that begins with a character other than whitespace is not blank. -/
theorem jsTrim_cons_ne_nil (c : Char) (t : List Char) (hc : isJsWhitespace c = false) :
    jsTrim (c :: t) ≠ [] := by
  have h : jsTrim (c :: t) = trimEndBy isJsWhitespace (c :: t) := by
    simp [jsTrim, jsTrimEnd, List.dropWhile, hc]
  rw [h, trimEndBy]
  cases trimEndBy isJsWhitespace t with
  | nil => simp [hc]
  | cons d r => simp

/-- C17 (amended): when a turn fails inside the stream, its content being
the fallback text (empty stream), "Error: " followed by a text (error frame)
or "Error reading response stream: " followed by a text (failed read),
exactly one assistant text is saved to history and it is the content of the
final message with surrounding whitespace trimmed. -/
theorem failed_stream_saved_trimmed (parse : List Char → Option JVal) (s : Session)
    (g : GptData) (message : List Char) (chunks : List (List Char)) (ending : StreamEnd)
    (huser : s.userId ≠ []) (hgpt : s.gptData = some g) (hmessage : jsTrim message ≠ [])
    (hfailed : (streamOutcome parse chunks ending).content = noResponseText ∨
      (∃ t, (streamOutcome parse chunks ending).content = "Error: ".toList ++ t) ∨
      ∃ t, (streamOutcome parse chunks ending).content =
        "Error reading response stream: ".toList ++ t) :
    finalMessages (handleChatSubmit parse s message (.body chunks ending)) =
        [streamOutcome parse chunks ending] ∧
      savedTexts "assistant".toList (handleChatSubmit parse s message (.body chunks ending)) =
        [jsTrim (streamOutcome parse chunks ending).content] := by
  have huserRole : ¬ "user".toList = "assistant".toList := by decide
  have hcontent : jsTrim (streamOutcome parse chunks ending).content ≠ [] := by
    rcases hfailed with h | ⟨t, h⟩ | ⟨t, h⟩
    · rw [h]
      decide
    · rw [h]
      exact jsTrim_cons_ne_nil 'E' _ (by decide)
    · rw [h]
      exact jsTrim_cons_ne_nil 'E' _ (by decide)
  rw [handleChatSubmit_body parse s g message chunks ending huser hgpt hmessage hcontent]
  simp [finalMessages, savedTexts, historyPayload, huserRole]

/-- C18 (amended): for a non-blank message submitted by a resolved identity
to a resolved assistant, when the stream ends with a content that is not
blank, the steps are, in this order: one history-save request for the user
turn, the chat request, the final message, and one history-save request for
the assistant turn whose message is the final content trimmed. -/
theorem one_save_per_turn (parse : List Char → Option JVal) (s : Session) (g : GptData)
    (message : List Char) (chunks : List (List Char)) (ending : StreamEnd)
    (huser : s.userId ≠ []) (hgpt : s.gptData = some g) (hmessage : jsTrim message ≠ [])
    (hcontent : jsTrim (streamOutcome parse chunks ending).content ≠ []) :
    handleChatSubmit parse s message (.body chunks ending) =
        [.saveHistory (historyPayload s.userId g message "user".toList),
         .sendChat (chatPayload parse s message),
         .finalMessage (streamOutcome parse chunks ending),
         .saveHistory (historyPayload s.userId g (streamOutcome parse chunks ending).content
           "assistant".toList)] ∧
      (historyPayload s.userId g (streamOutcome parse chunks ending).content
        "assistant".toList).message = jsTrim (streamOutcome parse chunks ending).content ∧
      savedTexts "user".toList (handleChatSubmit parse s message (.body chunks ending)) =
        [jsTrim message] ∧
      savedTexts "assistant".toList (handleChatSubmit parse s message (.body chunks ending)) =
        [jsTrim (streamOutcome parse chunks ending).content] := by
  have h1 : ¬ "user".toList = "assistant".toList := by decide
  have h2 : ¬ "assistant".toList = "user".toList := by decide
  have hbody := handleChatSubmit_body parse s g message chunks ending huser hgpt hmessage hcontent
  refine ⟨hbody, rfl, ?_, ?_⟩
  · rw [hbody]
    simp [savedTexts, historyPayload, h2]
  · rw [hbody]
    simp [savedTexts, historyPayload, h1]

/-- C17 (counterexample): an error frame whose text ends with a space is
shown as "Error: boom " and saved as "Error: boom"; a response that is not
`ok` is shown as "Error: Server responded with 500: Internal Server Error"
and saved as "Error processing request: Server responded with 500: Internal
Server Error". -/
theorem saved_text_differs_from_content :
    finalMessages (handleChatSubmit jsonParse demoSession "hello".toList
        (.body [encodeRecords [spacedErrorRecord]] .eof)) =
        [{ content := "Error: boom ".toList, isError := true }] ∧
      savedTexts "assistant".toList (handleChatSubmit jsonParse demoSession "hello".toList
        (.body [encodeRecords [spacedErrorRecord]] .eof)) = ["Error: boom".toList] ∧
      finalMessages (handleChatSubmit jsonParse demoSession "hello".toList
        (.notOk 500 "Internal Server Error".toList)) =
        [{ content := "Error: Server responded with 500: Internal Server Error".toList,
           isError := true }] ∧
      savedTexts "assistant".toList (handleChatSubmit jsonParse demoSession "hello".toList
        (.notOk 500 "Internal Server Error".toList)) =
        ["Error processing request: Server responded with 500: Internal Server Error".toList] := by
  decide

/-- Witness of C17 (amended): the error frame "boom" is shown as
"Error: boom" and saved as the same text. -/
theorem failed_stream_saved_trimmed_witness :
    finalMessages (handleChatSubmit jsonParse demoSession "hello".toList
        (.body [encodeRecords [boomRecord]] .eof)) =
        [{ content := "Error: boom".toList, isError := true }] ∧
      savedTexts "assistant".toList (handleChatSubmit jsonParse demoSession "hello".toList
        (.body [encodeRecords [boomRecord]] .eof)) = ["Error: boom".toList] :=
  failed_stream_saved_trimmed jsonParse demoSession demoGpt "hello".toList
    [encodeRecords [boomRecord]] .eof (by decide) rfl (by decide)
    (Or.inr (Or.inl ⟨"boom".toList, by decide⟩))

/-- C18 (counterexample): the stream carrying the content " " and a done
frame ends with the non-empty content " " and no error flag, and no
history-save request is issued for the assistant turn. -/
theorem blank_response_not_saved :
    finalMessages (handleChatSubmit jsonParse demoSession "hello".toList
        (.body [encodeRecords [blankContentRecord, doneRecord]] .eof)) =
        [{ content := " ".toList, isError := false }] ∧
      savedTexts "assistant".toList (handleChatSubmit jsonParse demoSession "hello".toList
        (.body [encodeRecords [blankContentRecord, doneRecord]] .eof)) = [] ∧
      savedTexts "user".toList (handleChatSubmit jsonParse demoSession "hello".toList
        (.body [encodeRecords [blankContentRecord, doneRecord]] .eof)) = ["hello".toList] := by
  decide

/-- Witness of C18 (amended): "hello" answered by content "Hi", content
" there" and done: one save of "hello", then the request, the final message
"Hi there", and one save of "Hi there". -/
theorem one_save_per_turn_witness :
    savedTexts "user".toList (handleChatSubmit jsonParse demoSession "hello".toList
        (.body [encodeRecords [hiRecord, thereRecord, doneRecord]] .eof)) = ["hello".toList] ∧
      savedTexts "assistant".toList (handleChatSubmit jsonParse demoSession "hello".toList
        (.body [encodeRecords [hiRecord, thereRecord, doneRecord]] .eof)) =
        ["Hi there".toList] :=
  (one_save_per_turn jsonParse demoSession demoGpt "hello".toList
    [encodeRecords [hiRecord, thereRecord, doneRecord]] .eof
    (by decide) rfl (by decide) (by decide)).2.2

/-! ### The tool schema goes with the enabled flag -/

/-- The flag computed by `resolveMcp` is set exactly when the assistant has
MCP enabled and a non-empty name is selected, and a schema is only ever
returned together with the flag. -/
theorem resolveMcp_enabled (parse : List Char → Option JVal) (mcpEnabled : Bool)
    (selected : Option (List Char)) (savedMcpConfigs : List McpConfig) :
    (resolveMcp parse mcpEnabled selected savedMcpConfigs).1 =
        (mcpEnabled && decide (selected ≠ none ∧ selected ≠ some [])) ∧
      ((resolveMcp parse mcpEnabled selected savedMcpConfigs).1 = true ∨
        (resolveMcp parse mcpEnabled selected savedMcpConfigs).2 = none) := by
  cases selected with
  | none => simp [resolveMcp]
  | some sel =>
    cases mcpEnabled <;> by_cases hs : sel = [] <;> simp [resolveMcp, hs]
    split <;> simp

/-- C28: in the chat request built for any session and message, `mcp_enabled`
is true exactly when the assistant has MCP enabled and a configuration is
selected, and either `mcp_enabled` is true or `mcp_schema` is null; so a
non-null `mcp_schema` only occurs with `mcp_enabled` true, and with MCP
disabled or nothing selected the request has `mcp_enabled` false and
`mcp_schema` null. -/
theorem mcp_schema_only_when_enabled (parse : List Char → Option JVal) (s : Session)
    (message : List Char) :
    (chatPayload parse s message).mcp_enabled =
        ((s.gptData.map fun g => g.mcpEnabled).getD false &&
          decide (s.selectedMcpServerName ≠ none ∧ s.selectedMcpServerName ≠ some [])) ∧
      ((chatPayload parse s message).mcp_enabled = true ∨
        (chatPayload parse s message).mcp_schema = none) :=
  resolveMcp_enabled parse _ _ _

/-! ### Sources frames -/

/-- A payload classified as a sources frame whose `data` carries the two
numbers appends the summary built from them. -/
theorem handleParsed_sources (st : StreamState) (parsed info : JVal) (n t : List Char)
    (h : frameKind parsed = .sourcesInfo)
    (hdata : parsed.getProp "data".toList = some (some info))
    (hcount : info.getProp "documents_retrieved_count".toList = some (some (.num n)))
    (htime : info.getProp "retrieval_time_ms".toList = some (some (.num t))) :
    handleParsed st parsed =
      ({ st with buffer := st.buffer ++ "\n\n[Sources Retrieved: ".toList ++ n ++
          " documents, ".toList ++ t ++ "ms]".toList }, false) := by
  unfold frameKind at h
  unfold handleParsed
  cases htype : parsed.getProp "type".toList with
  | none => simp only [htype] at h; exact absurd h (by decide)
  | some type =>
    simp only [htype] at h ⊢
    split at h
    · exact absurd h (by decide)
    · rename_i h1
      split at h
      · exact absurd h (by decide)
      · rename_i h2
        split at h
        · exact absurd h (by decide)
        · rename_i h3
          split at h
          · rename_i h4
            rw [if_neg h1, if_neg h2, if_neg h3, if_pos h4]
            simp only [handleSourcesFrame, hdata, Option.getD_some, hcount, htime, jsToString,
              JVal.toText]
          · exact absurd h (by decide)

/-- C25: processing a sources frame whose `data` has the numbers `n` as
`documents_retrieved_count` and `t` as `retrieval_time_ms` (given by their
decimal texts) makes the buffer the old buffer followed by exactly
"\n\n[Sources Retrieved: n documents, tms]"; the done flag and the stream
error are unchanged and the loop goes on. -/
theorem sources_frame_appends_summary (st : StreamState) (parsed info : JVal) (n t : List Char)
    (h : frameKind parsed = .sourcesInfo)
    (hdata : parsed.getProp "data".toList = some (some info))
    (hcount : info.getProp "documents_retrieved_count".toList = some (some (.num n)))
    (htime : info.getProp "retrieval_time_ms".toList = some (some (.num t))) :
    (handleParsed st parsed).1.buffer =
        st.buffer ++ ("\n\n[Sources Retrieved: ".toList ++ n ++ " documents, ".toList ++ t ++
          "ms]".toList) ∧
      (handleParsed st parsed).1.doneStreaming = st.doneStreaming ∧
      (handleParsed st parsed).1.streamError = st.streamError ∧
      (handleParsed st parsed).2 = false := by
  rw [handleParsed_sources st parsed info n t h hdata hcount htime]
  simp

/-- Witness of C25: with "Hi" in the buffer, the frame of `sourcesRecord`
(3 documents, 12 ms) gives "Hi\n\n[Sources Retrieved: 3 documents, 12ms]". -/
theorem sources_frame_appends_summary_witness :
    jsonParse (sourcesRecord.drop 6) = some sourcesFrame ∧
      (handleParsed { buffer := "Hi".toList, doneStreaming := false, streamError := none }
          sourcesFrame).1.buffer =
        "Hi\n\n[Sources Retrieved: 3 documents, 12ms]".toList :=
  ⟨by decide,
    (sources_frame_appends_summary
      { buffer := "Hi".toList, doneStreaming := false, streamError := none } sourcesFrame
      (.obj (.cons "documents_retrieved_count".toList (.num "3".toList)
        (.cons "retrieval_time_ms".toList (.num "12".toList) .nil)))
      "3".toList "12".toList (by decide) (by decide) (by decide) (by decide)).1⟩

/-! ### Error payloads without a type -/

/-- C22 (amended): a payload object that has no `type` and whose `error` is a
non-empty text `e` is classified as an error frame and handled like the same
object with `type` set to "error": the loop is left with the buffer "Error: "
followed by `e`, the done flag set and `e` as stream error, the lines after it
are not decoded, and the final message has that content and the error flag. -/
theorem untyped_error_payload_is_error_frame (parse : List Char → Option JVal)
    (st : StreamState) (line : List Char) (rest : List (List Char)) (fields : JMembers)
    (e : List Char)
    (hparse : parse (line.drop 6) = some (.obj fields))
    (htype : fields.get? "type".toList = none)
    (herror : fields.get? "error".toList = some (.str e))
    (hne : e ≠ []) :
    frameKind (.obj fields) = .error ∧
      handleParsed st (.obj fields) =
        handleParsed st (.obj (.cons "type".toList (.str "error".toList) fields)) ∧
      processLines parse st (line :: rest) =
        { buffer := "Error: ".toList ++ e, doneStreaming := true, streamError := some (.str e) } ∧
      finishStream (processLines parse st (line :: rest)) =
        { content := "Error: ".toList ++ e, isError := true } := by
  have htruthy : jsTruthy (some (JVal.str e)) = true := by simp [jsTruthy, hne]
  have h1 : handleParsed st (.obj fields) =
      ({ buffer := "Error: ".toList ++ e, doneStreaming := true,
         streamError := some (.str e) }, true) :=
    handleParsed_error_text st _ e (by simp only [JVal.getProp, herror]) hne
  have h2 : handleParsed st (.obj (.cons "type".toList (.str "error".toList) fields)) =
      ({ buffer := "Error: ".toList ++ e, doneStreaming := true,
         streamError := some (.str e) }, true) :=
    handleParsed_error_text st _ e
      (by rw [JVal.getProp, JMembers.get?, if_neg (by decide), herror]) hne
  have h3 : processLines parse st (line :: rest) =
      { buffer := "Error: ".toList ++ e, doneStreaming := true, streamError := some (.str e) } := by
    simp [processLines, handleLine, hparse, h1]
  refine ⟨?_, ?_, h3, ?_⟩
  · simp only [frameKind, JVal.getProp, htype, herror, htruthy, Option.getD_some, Bool.or_true,
      if_true]
  · rw [h1, h2]
  · rw [h3]
    simp [finishStream, htruthy]

/-- Witness of C22 (amended): the payload with only the `error` text "boom"
is handled like `boomFrame`, and the record of "Hi" after it is not decoded. -/
theorem untyped_error_payload_is_error_frame_witness :
    handleParsed StreamState.init (.obj untypedBoomFields) =
        handleParsed StreamState.init boomFrame ∧
      finishStream (processLines jsonParse StreamState.init [untypedBoomRecord, hiRecord]) =
        { content := "Error: boom".toList, isError := true } :=
  have h := untyped_error_payload_is_error_frame jsonParse StreamState.init untypedBoomRecord
    [hiRecord] untypedBoomFields "boom".toList (by decide) (by decide) (by decide) (by decide)
  ⟨h.2.1, h.2.2.2⟩

/-- C22 (counterexample): a payload that carries the `error` field with the
empty text and no `type` is not handled as an error frame: decoding goes on
and the content frame after it gives "Hi" without error flag, whereas the
error frame with the same error text stops decoding and sets the flag. -/
theorem untyped_empty_error_ignored :
    handleStreamingResponse jsonParse [encodeRecords [untypedEmptyErrorRecord, hiRecord]] =
        { content := "Hi".toList, isError := false } ∧
      handleStreamingResponse jsonParse [encodeRecords [emptyErrorRecord, hiRecord]] =
        { content := "Error: Unknown streaming error".toList, isError := true } := by
  decide

/-! ### The done frame -/

/-- Once `doneStreaming` is set the `for` loop cannot clear it. -/
theorem processLines_stays_done (parse : List Char → Option JVal) (lines : List (List Char))
    (st : StreamState) (hst : st.doneStreaming = true) :
    (processLines parse st lines).doneStreaming = true := by
  induction lines generalizing st with
  | nil => exact hst
  | cons line rest ih =>
    have hflag := handleLine_flag parse st line
    rw [hst, Bool.or_true] at hflag
    rw [processLines]
    split
    · exact hflag
    · exact ih _ hflag

/-- Chunks that do not end the stream are all read, and reading goes on after
them from the state they leave. -/
theorem readChunks_append (parse : List Char → Option JVal) (before rest : List (List Char))
    (st : StreamState) (h : (readChunks parse st before).doneStreaming = false) :
    readChunks parse st (before ++ rest) = readChunks parse (readChunks parse st before) rest ∧
      chunksRead parse st (before ++ rest) =
        before.length + chunksRead parse (readChunks parse st before) rest := by
  induction before generalizing st with
  | nil => simp [readChunks]
  | cons c cs ih =>
    cases hst : st.doneStreaming with
    | true => simp [readChunks, hst] at h
    | false =>
      have hn : ¬ st.doneStreaming = true := by simp [hst]
      rw [readChunks, if_neg hn] at h
      obtain ⟨h1, h2⟩ := ih _ h
      rw [List.cons_append, readChunks, chunksRead, if_neg hn, if_neg hn, readChunks, if_neg hn,
        h1, h2, List.length_cons]
      exact ⟨rfl, by omega⟩

/-- C24 (amended): when the chunks `before` and the lines `l1` of the next
chunk do not end the stream and the line after `l1` carries a done frame,
then whatever the lines `l2` after it in the same chunk and the chunks
`after` carry, the final message is the one made from the state reached
after `l1` (its buffer, or the fallback text when that buffer is empty and
no stream error was recorded), and the chunk of the done frame is the last
one read. -/
theorem done_frame_ends_stream (parse : List Char → Option JVal)
    (before : List (List Char)) (chunk : List Char) (after : List (List Char))
    (l1 : List (List Char)) (line : List Char) (l2 : List (List Char)) (parsed : JVal)
    (hlines : chunkLines chunk = l1 ++ line :: l2)
    (hl1 : (processLines parse (readChunks parse StreamState.init before) l1).doneStreaming
      = false)
    (hparse : parse (line.drop 6) = some parsed)
    (hdone : frameKind parsed = .done) :
    handleStreamingResponse parse (before ++ chunk :: after) =
        finishStream { processLines parse (readChunks parse StreamState.init before) l1 with
          doneStreaming := true } ∧
      chunksRead parse StreamState.init (before ++ chunk :: after) = before.length + 1 := by
  cases hb : (readChunks parse StreamState.init before).doneStreaming with
  | true =>
    rw [processLines_stays_done parse l1 _ hb] at hl1
    exact absurd hl1 (by decide)
  | false =>
    obtain ⟨h1, h2⟩ := readChunks_append parse before (chunk :: after) StreamState.init hb
    have hn : ¬ (readChunks parse StreamState.init before).doneStreaming = true := by simp [hb]
    have hline : processLines parse (processLines parse (readChunks parse StreamState.init before) l1)
        (line :: l2) =
        { processLines parse (readChunks parse StreamState.init before) l1 with
          doneStreaming := true } := by
      simp [processLines, handleLine, hparse, handleParsed_done _ parsed hdone]
    have hchunk : processLines parse (readChunks parse StreamState.init before) (chunkLines chunk) =
        { processLines parse (readChunks parse StreamState.init before) l1 with
          doneStreaming := true } := by
      rw [hlines, processLines_append parse l1 _ _ hb, hl1]
      simpa using hline
    constructor
    · unfold handleStreamingResponse
      rw [h1, readChunks, if_neg hn, hchunk, readChunks_done parse after _ rfl]
    · rw [h2, chunksRead, if_neg hn, hchunk]
      cases after with
      | nil => simp [chunksRead]
      | cons a as => simp [chunksRead]

/-- Witness of C24 (amended): "Hi" in a first chunk, then " there", done and
"Hi" in a second chunk, then " there" in a third: the content is "Hi there"
and two chunks are read. -/
theorem done_frame_ends_stream_witness :
    handleStreamingResponse jsonParse
        [encodeRecords [hiRecord], encodeRecords [thereRecord, doneRecord, hiRecord],
          encodeRecords [thereRecord]] =
      { content := "Hi there".toList, isError := false } ∧
    chunksRead jsonParse StreamState.init
        [encodeRecords [hiRecord], encodeRecords [thereRecord, doneRecord, hiRecord],
          encodeRecords [thereRecord]] = 2 :=
  done_frame_ends_stream jsonParse [encodeRecords [hiRecord]]
    (encodeRecords [thereRecord, doneRecord, hiRecord]) [encodeRecords [thereRecord]]
    [thereRecord] doneRecord [hiRecord] doneFrame (by decide) (by decide) (by decide) (by decide)

/-- C24 (counterexample): when the done frame comes while the buffer is still
empty, the final content is not that empty buffer but the fallback text, with
the error flag set. -/
theorem done_frame_with_empty_buffer :
    (readChunks jsonParse StreamState.init [encodeRecords [doneRecord, hiRecord]]).buffer = [] ∧
      handleStreamingResponse jsonParse [encodeRecords [doneRecord, hiRecord]] =
        { content := noResponseText, isError := true } ∧
      noResponseText ≠ [] := by
  decide

/-! ### Records of more than one line, and records after whitespace -/

/-- A record of two lines, followed by the separator, is one piece of the
split. -/
theorem splitBlankLine_two_lines (first second rest : List Char) (h1 : '\n' ∉ first)
    (h2 : '\n' ∉ second) (hne : second ≠ []) :
    splitBlankLine (first ++ '\n' :: (second ++ '\n' :: '\n' :: rest)) =
      (first ++ '\n' :: second) :: splitBlankLine rest := by
  induction first with
  | nil =>
    cases second with
    | nil => exact absurd rfl hne
    | cons d ds =>
      have hd : d ≠ '\n' := fun h => h2 (by simp [h])
      rw [List.nil_append, splitBlankLine_lead _ (by simp [hd]),
        splitBlankLine_record (d :: ds) rest h2]
      rfl
  | cons c r ih =>
    have hc : c ≠ '\n' := fun h => h1 (by simp [h])
    have hr : '\n' ∉ r := fun h => h1 (List.mem_cons_of_mem _ h)
    rw [List.cons_append, splitBlankLine_cons c _ hc (by simp), ih hr]
    rfl

/-- C23 (amended): a record that is the single line `data: ` followed by a
payload, and passes the filter, is the one line of its chunk, the parser is
handed that payload and the parsed payload is handled as the frame, and the
final message is made from the state after that line.  The lines of a record
are not looked at one by one: a record of two lines whose text, after
trimming, does not begin with `data: ` fails the filter whole, so nothing is
handed to the parser and the final message is the fallback text with the
error flag, whatever its second line is. -/
theorem single_data_line_decoded (parse : List Char → Option JVal)
    (payload first second : List Char)
    (hpayload : '\n' ∉ payload) (hdata : isDataLine (dataRecord payload) = true)
    (hfirst : '\n' ∉ first) (hsecond : '\n' ∉ second) (hne : second ≠ [])
    (hskip : isDataLine (first ++ '\n' :: second) = false) (st : StreamState) :
    chunkLines (encodeRecords [dataRecord payload]) = [dataRecord payload] ∧
      handleLine parse st (dataRecord payload) =
        (match parse payload with
          | none => (st, false)
          | some parsed => handleParsed st parsed) ∧
      handleStreamingResponse parse [encodeRecords [dataRecord payload]] =
        finishStream { (handleLine parse StreamState.init (dataRecord payload)).1 with
          doneStreaming := true } ∧
      chunkLines (encodeRecords [first ++ '\n' :: second]) = [] ∧
      handleStreamingResponse parse [encodeRecords [first ++ '\n' :: second]] =
        { content := noResponseText, isError := true } := by
  have hline : '\n' ∉ dataRecord payload := by
    intro h
    rcases List.mem_append.mp h with h1 | h1
    · exact absurd h1 (by decide)
    · exact hpayload h1
  have hempty : isDataLine [] = false := by decide
  have hlines1 : chunkLines (encodeRecords [dataRecord payload]) = [dataRecord payload] := by
    rw [chunkLines_encodeRecords _ (by simpa using hline)]
    simp [hdata]
  have hlines2 : chunkLines (encodeRecords [first ++ '\n' :: second]) = [] := by
    have hsplit : splitBlankLine (encodeRecords [first ++ '\n' :: second]) =
        [first ++ '\n' :: second, []] := by
      have := splitBlankLine_two_lines first second [] hfirst hsecond hne
      simpa [encodeRecords, splitBlankLine] using this
    simp [chunkLines, hsplit, hskip, hempty]
  refine ⟨hlines1, ?_, ?_, hlines2, ?_⟩
  · rw [handleLine, dataRecord_drop]
  · rw [handleStreamingResponse_eq]
    simp only [List.flatMap_cons, List.flatMap_nil, List.append_nil, hlines1, processLines]
    split <;> rfl
  · rw [handleStreamingResponse_eq]
    simp only [List.flatMap_cons, List.flatMap_nil, List.append_nil, hlines2, processLines]
    rfl

/-- Witness of C23 (amended): the data line of the content frame "x" alone
gives the content "x"; with the line `event: message` before it the response
is the fallback text. -/
theorem single_data_line_decoded_witness :
    handleStreamingResponse jsonParse [encodeRecords [dataRecord xPayload]] =
        { content := "x".toList, isError := false } ∧
      handleStreamingResponse jsonParse [encodeRecords [eventDataRecord]] =
        { content := noResponseText, isError := true } :=
  have h := single_data_line_decoded jsonParse xPayload "event: message".toList
    (dataRecord xPayload) (by decide) (by decide) (by decide) (by decide) (by decide) (by decide)
    StreamState.init
  ⟨h.2.2.1, h.2.2.2.2⟩

/-- C23 (counterexample): the record made of the line `event: message` and
the data line of the content frame "x" yields no frame, and the response is
the fallback text with the error flag, while the data line alone gives "x". -/
theorem event_line_hides_data_line :
    streamFrames jsonParse [encodeRecords [eventDataRecord]] = [] ∧
      handleStreamingResponse jsonParse [encodeRecords [eventDataRecord]] =
        { content := noResponseText, isError := true } ∧
      handleStreamingResponse jsonParse [encodeRecords [dataRecord xPayload]] =
        { content := "x".toList, isError := false } := by
  decide

/-- C30: the record of "Hi" preceded by two spaces passes the filter, but the
text handed to the parser is cut at six characters of the untrimmed record,
so it begins with the colon of `data: `; it does not parse, no frame is
decoded and the response is the fallback text with the error flag, while the
same record without the spaces gives "Hi". -/
theorem indented_record_not_decoded :
    isDataLine indentedHiRecord = true ∧
      indentedHiRecord.drop 6 = ": \x7b\"type\":\"content\",\"data\":\"Hi\"\x7d".toList ∧
      streamFrames jsonParse [encodeRecords [indentedHiRecord]] = [none] ∧
      handleStreamingResponse jsonParse [encodeRecords [indentedHiRecord]] =
        { content := noResponseText, isError := true } ∧
      handleStreamingResponse jsonParse [encodeRecords [hiRecord]] =
        { content := "Hi".toList, isError := false } := by
  decide

/-! ### Frames of a stream that a new submission has overtaken -/

/-- C21 (amended): a submission of a non-blank message clears the displayed
streaming turn and adds only the new user turn to memory; the stream that was
open before is not superseded: a content frame of it that arrives next sets
the displayed turn to that stream's buffer, and when it ends after the new
stream has opened, its buffer is shown under the message of the new stream
and finalized into conversation memory after the new user turn. -/
theorem stale_frames_are_applied (v : ChatView) (message : List Char) (now : Nat)
    (buffer : List Char) (isError : Bool) (messageId later : Nat)
    (hmessage : jsTrim message ≠ []) :
    viewStep v (.submit message now) =
        { streamingMessage := none
          conversationMemory := submitMemory message now v.conversationMemory } ∧
      (viewStep (viewStep v (.submit message now)) (.contentFrame buffer)).streamingMessage =
        some { id := none, content := buffer, isStreaming := true, isError := false } ∧
      viewStep (viewStep (viewStep v (.submit message now)) (.streamOpened messageId))
          (.streamFinished buffer isError later) =
        { streamingMessage :=
            some { id := some messageId, content := buffer, isStreaming := false,
                   isError := isError }
          conversationMemory :=
            finalizeMemory buffer later (submitMemory message now v.conversationMemory) } := by
  simp [viewStep, hmessage]

/-- Witness of C21 (amended): the first stream has shown "Old"; after the
submission of "second", its next content frame puts "Old answer" on
display. -/
theorem stale_frames_are_applied_witness :
    (viewStep (viewStep (runView firstStreamOpen ⟨none, []⟩) (.submit "second".toList 3))
        (.contentFrame "Old answer".toList)).streamingMessage =
      some { id := none, content := "Old answer".toList, isStreaming := true, isError := false } :=
  (stale_frames_are_applied (runView firstStreamOpen ⟨none, []⟩) "second".toList 3
    "Old answer".toList false 4 5 (by decide)).2.1

/-- C21 (counterexample): after the submission of "second" the displayed
streaming turn is empty; a content frame of the first stream that arrives
then is not discarded but displayed, and when the first stream ends after
the second has opened, its text "Old answer" is shown under the message of
the second stream and appended to memory. -/
theorem stale_frame_changes_display_and_memory :
    (runView [.submit "second".toList 3] (runView firstStreamOpen ⟨none, []⟩)).streamingMessage
        = none ∧
      (runView [.submit "second".toList 3, .contentFrame "Old answer".toList]
          (runView firstStreamOpen ⟨none, []⟩)).streamingMessage =
        some { id := none, content := "Old answer".toList, isStreaming := true,
               isError := false } ∧
      (runView [.submit "second".toList 3, .streamOpened 4,
          .streamFinished "Old answer".toList false 5]
          (runView firstStreamOpen ⟨none, []⟩)) =
        { streamingMessage :=
            some { id := some 4, content := "Old answer".toList, isStreaming := false,
                   isError := false }
          conversationMemory :=
            [⟨"user".toList, "first".toList, 1⟩, ⟨"user".toList, "second".toList, 3⟩,
              ⟨"assistant".toList, "Old answer".toList, 5⟩] } := by
  decide

/-! ### Batch invitations -/

/-- One row changes exactly one of the three counters, by one, and adds one
error entry unless the row was sent. -/
theorem processRow_counts (service : Nat → List Char → InviteOutcome) (i : Nat)
    (row : List Char) (results : CsvResults) :
    (processRow service i row results).total = results.total ∧
      (processRow service i row results).sent + (processRow service i row results).failed +
          (processRow service i row results).skipped =
        results.sent + results.failed + results.skipped + 1 ∧
      (processRow service i row results).errors.length + results.failed + results.skipped =
        results.errors.length + (processRow service i row results).failed +
          (processRow service i row results).skipped := by
  unfold processRow
  generalize List.map jsTrim (splitOnChar ',' row) = columns
  rcases columns with _ | ⟨a, _ | ⟨email, tail⟩⟩
  · simp; omega
  · simp; omega
  · dsimp only
    split
    · simp; omega
    · cases service i email <;> simp <;> omega

/-- The loop adds the number of rows to the sum of the counters and one error
entry per failed or skipped row. -/
theorem processRows_counts (service : Nat → List Char → InviteOutcome) (rows : List (List Char))
    (i : Nat) (results : CsvResults) :
    (processRows service i rows results).total = results.total ∧
      (processRows service i rows results).sent + (processRows service i rows results).failed +
          (processRows service i rows results).skipped =
        results.sent + results.failed + results.skipped + rows.length ∧
      (processRows service i rows results).errors.length + results.failed + results.skipped =
        results.errors.length + (processRows service i rows results).failed +
          (processRows service i rows results).skipped := by
  induction rows generalizing i results with
  | nil => simp [processRows]
  | cons row rest ih =>
    obtain ⟨h1, h2, h3⟩ := processRow_counts service i row results
    obtain ⟨k1, k2, k3⟩ := ih (i + 1) (processRow service i row results)
    rw [processRows]
    refine ⟨k1.trans h1, ?_, ?_⟩
    · rw [k2, List.length_cons]; omega
    · omega

/-- For an uploaded text with at least one non-blank row the reported counts
add up: `total` is the number of non-blank rows after the first, it equals
`sent + failed + skipped`, and `errors` has one entry per failed or skipped
row. -/
theorem processCsvInvitations_counts (service : Nat → List Char → InviteOutcome)
    (csvData : List Char) (hrows : csvRows csvData ≠ []) :
    ∃ results, processCsvInvitations true (some csvData) service = (200, some results) ∧
      results.total = ((csvRows csvData).drop 1).length ∧
      results.total = results.sent + results.failed + results.skipped ∧
      results.errors.length = results.failed + results.skipped := by
  refine ⟨_, rfl, ?_⟩
  obtain ⟨h1, h2, h3⟩ := processRows_counts service ((csvRows csvData).drop 1) 1
    { total := ((csvRows csvData).length : Int) - 1, sent := 0, failed := 0, skipped := 0,
      errors := [] }
  have hlen : 1 ≤ (csvRows csvData).length := by
    cases h : csvRows csvData with
    | nil => exact absurd h hrows
    | cons a as => simp
  simp only [List.length_drop] at h2 ⊢
  simp only [List.length_nil] at h3
  refine ⟨?_, ?_, ?_⟩
  · rw [h1]; simp only; omega
  · rw [h1]; simp only; omega
  · omega

/-- C27: for an uploaded text without any non-blank row (here the empty
text) an administrator gets status 200 and the counts `total = -1`,
`sent = failed = skipped = 0`: `total` is neither the number of rows after
the header (there are none) nor the sum of the three counters. -/
theorem empty_csv_total_negative (service : Nat → List Char → InviteOutcome) :
    csvRows [] = [] ∧
      processCsvInvitations true (some []) service =
        (200, some { total := -1, sent := 0, failed := 0, skipped := 0, errors := [] }) :=
  ⟨rfl, rfl⟩

/-! ### Stored tool schemas -/

/-- The document that an update by the creator writes, when it writes one. -/
theorem updateMcpConfig_found (parse : List Char → Option JVal) (doc : McpDoc) (dbOk : Bool)
    (body : McpBody) (d : McpDoc)
    (h : (updateMcpConfig parse doc.createdBy (.found doc) dbOk body).saved = some d) :
    schemaRejected parse body.schema = false ∧
      d = { id := doc.id
            name := jsTrim (textOr body.name doc.name)
            description := jsTrim (textOr body.description doc.description)
            schema := textOr body.schema doc.schema
            createdBy := doc.createdBy
            isPublic := isPublicFlag body.isPublic } := by
  unfold updateMcpConfig at h
  simp only [ne_eq, not_true_eq_false, if_false] at h
  split at h
  · simp at h
  · rename_i hr
    split at h
    · simp at h
      exact ⟨by simpa using hr, h.symm⟩
    · simp at h

/-- An update by the creator that omits `name`, `description` and `schema`
writes the stored description and schema back, and the stored name (both
texts trimmed, as they were when they were stored). -/
theorem updateMcpConfig_keeps_omitted_texts (parse : List Char → Option JVal) (doc : McpDoc)
    (dbOk : Bool) (isPublic : Option JVal) (d : McpDoc)
    (h : (updateMcpConfig parse doc.createdBy (.found doc) dbOk
      { name := none, description := none, schema := none, isPublic := isPublic }).saved =
        some d) :
    d.name = jsTrim doc.name ∧ d.description = jsTrim doc.description ∧
      d.schema = doc.schema := by
  obtain ⟨_, hd⟩ := updateMcpConfig_found parse doc dbOk _ d h
  rw [hd]
  exact ⟨rfl, rfl, rfl⟩

/-- C26 (amended): every document written by `createMcpConfig` or by
`updateMcpConfig` on a stored document whose schema parses has a schema that
parses; `createMcpConfig` answers 400 and writes nothing when the schema is
missing or does not parse; `updateMcpConfig`, called by the creator of a
stored document, answers 400 and writes nothing when the submitted schema is
a non-empty text that does not parse; and an update whose schema is missing
or the empty text writes the stored schema back. -/
theorem stored_schema_parses (parse : List Char → Option JVal) (userId newId : List Char)
    (dbOk : Bool) (body : McpBody) (doc : McpDoc)
    (hstored : parse doc.schema ≠ none) (hcreator : doc.createdBy = userId) :
    (∀ d, (createMcpConfig parse userId newId dbOk body).saved = some d →
        parse d.schema ≠ none) ∧
      (body.schema.bind parse = none →
        createMcpConfig parse userId newId dbOk body = { status := 400, saved := none }) ∧
      (∀ d, (updateMcpConfig parse userId (.found doc) dbOk body).saved = some d →
        parse d.schema ≠ none) ∧
      (∀ s, body.schema = some s → s ≠ [] → parse s = none →
        updateMcpConfig parse userId (.found doc) dbOk body = { status := 400, saved := none }) ∧
      (body.schema = none ∨ body.schema = some [] →
        ∀ d, (updateMcpConfig parse userId (.found doc) dbOk body).saved = some d →
          d.schema = doc.schema) := by
  subst hcreator
  refine ⟨?_, ?_, ?_, ?_, ?_⟩
  · intro d hd
    unfold createMcpConfig at hd
    cases hs : body.schema with
    | none => simp [hs] at hd
    | some s =>
      cases hp : parse s with
      | none => simp [hs, hp] at hd
      | some v =>
        simp only [hs, hp] at hd
        split at hd
        · simp at hd
          rw [← hd]
          simp [hp]
        · simp at hd
  · intro hb
    unfold createMcpConfig
    cases hs : body.schema with
    | none => rfl
    | some s =>
      rw [hs] at hb
      have hp : parse s = none := by simpa using hb
      simp [hp]
  · intro d hd
    obtain ⟨hr, hdoc⟩ := updateMcpConfig_found parse doc dbOk body d hd
    rw [hdoc]
    cases hs : body.schema with
    | none => simpa [textOr] using hstored
    | some s =>
      by_cases hne : s = []
      · simpa [textOr, hne] using hstored
      · have : (parse s).isNone = false := by simpa [schemaRejected, hs, hne] using hr
        cases hp : parse s with
        | none => simp [hp] at this
        | some v => simp [textOr, hne, hp]
  · intro s hs hne hp
    simp [updateMcpConfig, schemaRejected, hs, hne, hp]
  · intro hb d hd
    obtain ⟨_, hdoc⟩ := updateMcpConfig_found parse doc dbOk body d hd
    rw [hdoc]
    rcases hb with hb | hb <;> simp [hb, textOr]

/-- Witness of C26 (amended): `publicDoc` is stored with a schema that
parses, and its creator `u1` submits the schema `{oops`: both controllers
answer 400 and write nothing. -/
theorem stored_schema_parses_witness :
    createMcpConfig jsonParse "u1".toList "cfg2".toList true brokenSchemaBody =
        { status := 400, saved := none } ∧
      updateMcpConfig jsonParse "u1".toList (.found publicDoc) true brokenSchemaBody =
        { status := 400, saved := none } :=
  have h := stored_schema_parses jsonParse "u1".toList "cfg2".toList true brokenSchemaBody
    publicDoc (by decide) (by decide)
  ⟨h.2.1 (by decide), h.2.2.2.1 _ rfl (by decide) (by decide)⟩

/-- C26 (counterexample): the empty text does not parse, yet an update by the
creator that submits it as schema is answered with 200 and changes the stored
record (new name, no longer public); and the same unparseable schema `{oops`
submitted by another user is answered with 403, not 400. -/
theorem empty_schema_update_accepted :
    jsonParse [] = none ∧
      updateMcpConfig jsonParse "u1".toList (.found publicDoc) true emptySchemaBody =
        { status := 200
          saved := some { publicDoc with name := "Renamed".toList, isPublic := false } } ∧
      updateMcpConfig jsonParse "u2".toList (.found publicDoc) true brokenSchemaBody =
        { status := 403, saved := none } := by
  decide

/-- C29: the creator of the public configuration `publicDoc` sends an update
whose body only has a new name; the answer is 200 and the document written
has `isPublic` false, although the body omits `isPublic`. -/
theorem update_without_isPublic_resets_it :
    publicDoc.isPublic = true ∧
      updateMcpConfig jsonParse "u1".toList (.found publicDoc) true renameBody =
        { status := 200
          saved := some { publicDoc with name := "Renamed".toList, isPublic := false } } := by
  decide

end UserChat
